import Mathlib

set_option maxHeartbeats 1000000
set_option maxRecDepth 4000

/-!
Verification development for the Bitcoin DCA backtesting engine of
`docs/backtest.js` (classes `DataLoader`, `Strategy`, `DailyDCAStrategy`,
`MonthlyDCAStrategy`, `AHR999PercentileStrategy`, `DynamicAHR999Strategy`,
`BacktestEngine`, `BacktestUI`).

Modelling conventions:
* JS numbers are modelled as exact rationals `ℚ`; where the code can
  produce `Infinity`/`NaN` (division by zero in `calculateAHR999`,
  `Math.pow` in the annualized-return computation) we use `JsNum`,
  an explicit rational-or-infinity-or-NaN type with JS arithmetic.
* `Math.pow` is transcendental and is therefore threaded through as an
  explicit function parameter (`jsPow` for the annualized return,
  `trendPow` for the power-law trend inside `DataLoader`).
* JS `Date` values in the engine are always whole calendar days
  (constructed from "YYYY-MM-DD" inputs or via day-stepping with
  `setDate`), so a date is a year/month/day triple `Ymd`; the JS
  timestamp comparison/subtraction (milliseconds / 86400000) is the day
  number `dayNumber`.
-/

namespace Backtest

/-! ## Calendar -/

structure Ymd where
  y : Int
  m : Int
  d : Int
  deriving DecidableEq, Repr

def isLeap (y : Int) : Bool := (y % 4 == 0 && y % 100 != 0) || (y % 400 == 0)

lemma isLeap_iff (y : Int) :
    isLeap y = true ↔ ((y % 4 = 0 ∧ y % 100 ≠ 0) ∨ y % 400 = 0) := by
  simp [isLeap]

def monthLength (y : Int) (m : Int) : Int :=
  if m = 1 then 31 else if m = 2 then (if isLeap y then 29 else 28)
  else if m = 3 then 31 else if m = 4 then 30 else if m = 5 then 31
  else if m = 6 then 30 else if m = 7 then 31 else if m = 8 then 31
  else if m = 9 then 30 else if m = 10 then 31 else if m = 11 then 30 else 31

/-- Days in months `1..m-1` of year `y` (0 for January). -/
def daysBeforeMonth (y : Int) (m : Int) : Int :=
  let l : Int := if isLeap y then 1 else 0
  if m = 1 then 0 else if m = 2 then 31 else if m = 3 then 59 + l
  else if m = 4 then 90 + l else if m = 5 then 120 + l else if m = 6 then 151 + l
  else if m = 7 then 181 + l else if m = 8 then 212 + l else if m = 9 then 243 + l
  else if m = 10 then 273 + l else if m = 11 then 304 + l else 334 + l

/-- Day number of a calendar date, shifted so that 1970-01-01 (the JS
epoch) is day 0: this is the JS `Date` timestamp divided by 86400000. -/
def dayNumber (x : Ymd) : Int :=
  365 * (x.y - 1) + (x.y - 1) / 4 - (x.y - 1) / 100 + (x.y - 1) / 400
    + daysBeforeMonth x.y x.m + (x.d - 1) - 719162

/-- A well-formed calendar date (positive year, real month and day). -/
def Valid (x : Ymd) : Prop :=
  1 ≤ x.y ∧ 1 ≤ x.m ∧ x.m ≤ 12 ∧ 1 ≤ x.d ∧ x.d ≤ monthLength x.y x.m

instance (x : Ymd) : Decidable (Valid x) := by unfold Valid; infer_instance

/-- `addDays(date, 1)` of the source: JS `setDate(getDate() + 1)` rolls
over month and year ends. -/
def nextDay (x : Ymd) : Ymd :=
  if x.d < monthLength x.y x.m then ⟨x.y, x.m, x.d + 1⟩
  else if x.m < 12 then ⟨x.y, x.m + 1, 1⟩
  else ⟨x.y + 1, 1, 1⟩

/-- `startDate` advanced by `k` calendar days (the engine's day loop). -/
def shiftDays (s : Ymd) : Nat → Ymd
  | 0 => s
  | k + 1 => nextDay (shiftDays s k)

/-- Linear index of a calendar month, used to compare months across
years. -/
def monthIdx (x : Ymd) : Int := 12 * x.y + (x.m - 1)

lemma monthLength_pos (y m : Int) : 1 ≤ monthLength y m := by
  unfold monthLength; split_ifs <;> omega

lemma monthLength_le (y m : Int) : monthLength y m ≤ 31 := by
  unfold monthLength; split_ifs <;> omega

lemma valid_nextDay {x : Ymd} (hx : Valid x) : Valid (nextDay x) := by
  obtain ⟨h1, h2, h3, h4, h5⟩ := hx
  unfold nextDay Valid
  split_ifs with ha hb <;> dsimp only
  · exact ⟨h1, h2, h3, by omega, by omega⟩
  · refine ⟨h1, by omega, by omega, by omega, ?_⟩
    exact monthLength_pos _ _
  · refine ⟨by omega, by omega, by omega, by omega, ?_⟩
    exact monthLength_pos _ _

lemma dayNumber_nextDay {x : Ymd} (hx : Valid x) :
    dayNumber (nextDay x) = dayNumber x + 1 := by
  obtain ⟨Y, M, D⟩ := x
  obtain ⟨h1, h2, h3, h4, h5⟩ := hx
  simp only at h1 h2 h3 h4 h5
  unfold nextDay
  split_ifs with ha hb
  · simp only [dayNumber]; omega
  · -- month rollover inside the year
    simp only at ha hb
    have hm : M = 1 ∨ M = 2 ∨ M = 3 ∨ M = 4 ∨ M = 5 ∨ M = 6 ∨
        M = 7 ∨ M = 8 ∨ M = 9 ∨ M = 10 ∨ M = 11 := by omega
    have hd : D = monthLength Y M := by
      have := monthLength_le Y M; omega
    rcases Bool.eq_false_or_eq_true (isLeap Y) with hl | hl <;>
      rcases hm with h | h | h | h | h | h | h | h | h | h | h <;>
        subst h <;>
        (simp [monthLength, hl] at hd; subst hd) <;>
        simp [dayNumber, daysBeforeMonth, monthLength, hl] <;>
        omega
  · -- year rollover: December 31st
    simp only at ha hb
    have hm : M = 12 := by omega
    subst hm
    have hd : D = 31 := by
      simp [monthLength] at h5 ha; omega
    subst hd
    have e4 : (Y - 1) / 4 + (if (4 : Int) ∣ Y then 1 else 0) = Y / 4 := by
      split_ifs with h <;> omega
    have e100 : (Y - 1) / 100 + (if (100 : Int) ∣ Y then 1 else 0) = Y / 100 := by
      split_ifs with h <;> omega
    have e400 : (Y - 1) / 400 + (if (400 : Int) ∣ Y then 1 else 0) = Y / 400 := by
      split_ifs with h <;> omega
    rcases Bool.eq_false_or_eq_true (isLeap Y) with hl | hl
    · have hp : (Y % 4 = 0 ∧ Y % 100 ≠ 0) ∨ Y % 400 = 0 := (isLeap_iff Y).mp hl
      simp [dayNumber, daysBeforeMonth, monthLength, hl]
      split_ifs at e4 e100 e400 <;> omega
    · have hp : ¬ ((Y % 4 = 0 ∧ Y % 100 ≠ 0) ∨ Y % 400 = 0) := by
        rw [← isLeap_iff]; simp [hl]
      simp [dayNumber, daysBeforeMonth, monthLength, hl]
      split_ifs at e4 e100 e400 <;> omega

lemma valid_shiftDays {s : Ymd} (hs : Valid s) (k : Nat) :
    Valid (shiftDays s k) := by
  induction k with
  | zero => exact hs
  | succ n ih => exact valid_nextDay ih

lemma dayNumber_shiftDays {s : Ymd} (hs : Valid s) (k : Nat) :
    dayNumber (shiftDays s k) = dayNumber s + k := by
  induction k with
  | zero => simp [shiftDays]
  | succ n ih =>
      rw [shiftDays, dayNumber_nextDay (valid_shiftDays hs n), ih]
      push_cast; ring

/-! ### Calendar order: `dayNumber` is strictly monotone in calendar order -/

/-- Calendar (lexicographic) strict order on dates. -/
def LexLt (a b : Ymd) : Prop :=
  monthIdx a < monthIdx b ∨ (monthIdx a = monthIdx b ∧ a.d < b.d)

/-- A measure that strictly increases along `nextDay`, compatible with
`LexLt`. -/
def lexMeasure (a : Ymd) : Int := 40 * monthIdx a + a.d

lemma lexLt_iff_measure {a b : Ymd} (ha : Valid a) (hb : Valid b) :
    LexLt a b ↔ lexMeasure a < lexMeasure b := by
  obtain ⟨-, -, -, ha4, ha5⟩ := ha
  obtain ⟨-, -, -, hb4, hb5⟩ := hb
  have la := monthLength_le a.y a.m
  have lb := monthLength_le b.y b.m
  have ha6 : a.d ≤ 31 := le_trans ha5 la
  have hb6 : b.d ≤ 31 := le_trans hb5 lb
  unfold LexLt lexMeasure
  constructor
  · rintro (h | ⟨h1, h2⟩) <;> omega
  · intro h
    rcases lt_trichotomy (monthIdx a) (monthIdx b) with hc | hc | hc <;> omega

lemma lexMeasure_nextDay {a : Ymd} (ha : Valid a) :
    lexMeasure a < lexMeasure (nextDay a) := by
  obtain ⟨h1, h2, h3, h4, h5⟩ := ha
  have la := monthLength_le a.y a.m
  unfold nextDay lexMeasure monthIdx
  split_ifs with hc hd <;> simp only <;> omega

lemma nextDay_le_of_lexLt {a b : Ymd} (ha : Valid a) (hb : Valid b)
    (h : LexLt a b) : nextDay a = b ∨ LexLt (nextDay a) b := by
  obtain ⟨ha1, ha2, ha3, ha4, ha5⟩ := ha
  obtain ⟨hb1, hb2, hb3, hb4, hb5⟩ := hb
  unfold nextDay
  split_ifs with hc hd
  · -- next day inside the same month
    rcases h with h | ⟨h1, h2⟩
    · right; left; simpa [monthIdx] using h
    · rcases lt_or_eq_of_le (show a.d + 1 ≤ b.d by omega) with h3 | h3
      · right; right
        refine ⟨by simpa [monthIdx] using h1, by simpa using h3⟩
      · left
        have : a.y = b.y ∧ a.m = b.m := by unfold monthIdx at h1; constructor <;> omega
        obtain ⟨e1, e2⟩ := this
        cases b; simp_all
  · -- month rollover
    rcases h with h | ⟨h1, h2⟩
    · have hmi : monthIdx a + 1 ≤ monthIdx b := by omega
      rcases lt_or_eq_of_le hmi with h3 | h3
      · right; left; simp only [monthIdx] at *; omega
      · -- b is in the month right after a's: the rollover lands on its 1st
        rcases lt_or_eq_of_le (show 1 ≤ b.d by omega) with h4 | h4
        · right; right
          constructor
          · simp only [monthIdx] at *; omega
          · simpa using h4
        · left
          have e1 : b.y = a.y ∧ b.m = a.m + 1 := by
            simp only [monthIdx] at h3; constructor <;> omega
          cases b; simp_all
    · -- same month but a.d < b.d is impossible: a.d is the month's last day
      exfalso
      have : a.y = b.y ∧ a.m = b.m := by unfold monthIdx at h1; constructor <;> omega
      obtain ⟨e1, e2⟩ := this
      rw [← e1, ← e2] at hb5
      omega
  · -- year rollover (a is December 31st)
    rcases h with h | ⟨h1, h2⟩
    · have hmi : monthIdx a + 1 ≤ monthIdx b := by omega
      rcases lt_or_eq_of_le hmi with h3 | h3
      · right; left; simp only [monthIdx] at *; omega
      · rcases lt_or_eq_of_le (show 1 ≤ b.d by omega) with h4 | h4
        · right; right
          constructor
          · simp only [monthIdx] at *; omega
          · simpa using h4
        · left
          have e1 : b.y = a.y + 1 ∧ b.m = 1 := by
            simp only [monthIdx] at h3; constructor <;> omega
          cases b; simp_all
    · exfalso
      have : a.y = b.y ∧ a.m = b.m := by unfold monthIdx at h1; constructor <;> omega
      obtain ⟨e1, e2⟩ := this
      rw [e1, e2] at hc
      omega

/-- `dayNumber` is strictly monotone with respect to calendar order. -/
lemma dayNumber_lt_of_lexLt {a b : Ymd} (ha : Valid a) (hb : Valid b)
    (h : LexLt a b) : dayNumber a < dayNumber b := by
  generalize hk : (lexMeasure b - lexMeasure a).toNat = k
  induction k using Nat.strong_induction_on generalizing a with
  | _ k ih =>
      rcases nextDay_le_of_lexLt ha hb h with he | hlt
      · rw [← he, dayNumber_nextDay ha]; omega
      · have hva := valid_nextDay ha
        have hsucc := lexMeasure_nextDay ha
        have hmb := (lexLt_iff_measure hva hb).mp hlt
        have hma := (lexLt_iff_measure ha hb).mp h
        have h3 : dayNumber (nextDay a) < dayNumber b :=
          ih ((lexMeasure b - lexMeasure (nextDay a)).toNat) (by omega) hva hlt rfl
        rw [dayNumber_nextDay ha] at h3
        omega

lemma monthIdx_le_of_dayNumber_le {a b : Ymd} (ha : Valid a) (hb : Valid b)
    (h : dayNumber a ≤ dayNumber b) : monthIdx a ≤ monthIdx b := by
  by_contra hc
  have : LexLt b a := Or.inl (by omega)
  have := dayNumber_lt_of_lexLt hb ha this
  omega

lemma eq_of_dayNumber_eq {a b : Ymd} (ha : Valid a) (hb : Valid b)
    (h : dayNumber a = dayNumber b) : a = b := by
  by_contra hc
  rcases lt_trichotomy (lexMeasure a) (lexMeasure b) with hm | hm | hm
  · have := dayNumber_lt_of_lexLt ha hb ((lexLt_iff_measure ha hb).mpr hm)
    omega
  · -- equal measures force equal dates
    apply hc
    obtain ⟨-, ha2, ha3, ha4, ha5⟩ := ha
    obtain ⟨-, hb2, hb3, hb4, hb5⟩ := hb
    have ha6 : a.d ≤ 31 := le_trans ha5 (monthLength_le a.y a.m)
    have hb6 : b.d ≤ 31 := le_trans hb5 (monthLength_le b.y b.m)
    have e1 : monthIdx a = monthIdx b ∧ a.d = b.d := by
      unfold lexMeasure at hm
      constructor <;> omega
    have e2 : a.y = b.y ∧ a.m = b.m := by
      obtain ⟨e, -⟩ := e1; unfold monthIdx at e; constructor <;> omega
    cases a; cases b; simp_all
  · have := dayNumber_lt_of_lexLt hb ha ((lexLt_iff_measure hb ha).mpr hm)
    omega

/-- Two valid dates in the same calendar month with the same day-of-month
are equal. -/
lemma eq_of_monthIdx_day_eq {a b : Ymd} (ha : Valid a) (hb : Valid b)
    (hm : monthIdx a = monthIdx b) (hd : a.d = b.d) : a = b := by
  obtain ⟨-, ha2, ha3, -, -⟩ := ha
  obtain ⟨-, hb2, hb3, -, -⟩ := hb
  have e2 : a.y = b.y ∧ a.m = b.m := by
    unfold monthIdx at hm; constructor <;> omega
  cases a; cases b; simp_all

lemma monthIdx_nextDay {a : Ymd} (ha : Valid a) :
    monthIdx (nextDay a) = monthIdx a ∨ monthIdx (nextDay a) = monthIdx a + 1 := by
  obtain ⟨h1, h2, h3, h4, h5⟩ := ha
  unfold nextDay monthIdx
  split_ifs with hc hd
  · left; rfl
  · right; simp only; omega
  · right; simp only; omega

/-- The month number changes along `nextDay` exactly when the month index
advances (the JS `getMonth()` comparison in `isFirstDayOfMonth`). -/
lemma nextDay_month_change {a : Ymd} (ha : Valid a) :
    ((nextDay a).m = a.m ∧ monthIdx (nextDay a) = monthIdx a) ∨
    ((nextDay a).m ≠ a.m ∧ monthIdx (nextDay a) = monthIdx a + 1) := by
  obtain ⟨h1, h2, h3, h4, h5⟩ := ha
  unfold nextDay monthIdx
  split_ifs with hc hd
  · left; exact ⟨rfl, rfl⟩
  · right; constructor
    · simp only; omega
    · simp only; omega
  · right; constructor
    · simp only; omega
    · simp only; omega

/-! ## JS numbers

`JsNum` models an IEEE double as an exact rational, positive/negative
infinity, or NaN, with the JS arithmetic used by the code under
verification (signed zero never arises in those computations: every zero
reaching a division there is `+0`). -/

inductive JsNum where
  | fin (q : ℚ)
  | inf (pos : Bool)
  | nan
  deriving DecidableEq, Repr

namespace JsNum

def isFinite : JsNum → Bool
  | fin _ => true
  | _ => false

def isNaN : JsNum → Bool
  | nan => true
  | _ => false

def add : JsNum → JsNum → JsNum
  | fin a, fin b => fin (a + b)
  | fin _, inf s => inf s
  | inf s, fin _ => inf s
  | inf s, inf t => if s = t then inf s else nan
  | _, _ => nan

def neg : JsNum → JsNum
  | fin a => fin (-a)
  | inf s => inf (!s)
  | nan => nan

def sub (a b : JsNum) : JsNum := add a (neg b)

def mul : JsNum → JsNum → JsNum
  | fin a, fin b => fin (a * b)
  | fin a, inf s => if a = 0 then nan else inf (decide (0 < a) == s)
  | inf s, fin a => if a = 0 then nan else inf (decide (0 < a) == s)
  | inf s, inf t => inf (s == t)
  | _, _ => nan

def div : JsNum → JsNum → JsNum
  | fin a, fin b =>
      if b = 0 then (if a = 0 then nan else inf (decide (0 < a)))
      else fin (a / b)
  | fin _, inf _ => fin 0
  | inf s, fin b => if b = 0 then inf s else inf (decide (0 < b) == s)
  | inf _, inf _ => nan
  | _, _ => nan

/-- The JS `<` comparison (false whenever either side is NaN). -/
def lt : JsNum → JsNum → Bool
  | fin a, fin b => decide (a < b)
  | fin _, inf s => s
  | inf s, fin _ => !s
  | inf s, inf t => !s && t
  | _, _ => false

end JsNum

/-! ## DataLoader

Models the loaded state of `class DataLoader`: `historicalData` as a list
of parsed rows (a `none` field is a CSV cell that was empty or failed
`parseFloat`), plus the power-law trend parameters of the metadata.
`Math.pow(bitcoinAgeDays, trend_b)` is transcendental, so the power
function is carried as an explicit field `trendPow`. -/

structure RowData where
  date : Ymd
  price : ℚ
  ahr999 : Option ℚ
  ratioDca : Option ℚ
  ratioTrend : Option ℚ
  deriving DecidableEq, Repr

structure DataLoader where
  rows : List RowData
  trend_a : ℚ
  trendPow : Int → ℚ

/-- A single day's price and indicator data (`class DayData`). -/
structure DayData where
  date : Ymd
  price : ℚ
  ahr999 : Option ℚ
  ratioDca : Option ℚ
  ratioTrend : Option ℚ
  deriving DecidableEq, Repr

namespace DataLoader

def dcaWindow : Nat := 200

def daysPerMonth : ℚ := 761 / 25

def genesisDate : Ymd := ⟨2009, 1, 3⟩

/-- `buildPriceCache` stores a parsed indicator value only when it is
truthy and not NaN: an explicit `0` in the CSV is stored as `null`. -/
def cacheVal (o : Option ℚ) : Option ℚ :=
  o.bind fun v => if v = 0 then none else some v

/-- The `priceCache` lookup: the cache is a map keyed by the formatted
date, each `Map.set` overwriting earlier rows with the same date. -/
def lookupRow (dl : DataLoader) (x : Ymd) : Option RowData :=
  dl.rows.reverse.find? fun r => decide (r.date = x)

def getLastHistoricalDate (dl : DataLoader) : Option Ymd :=
  (dl.rows.getLast?).map (·.date)

/-- `calculatePowerLawPrice`: `trend_a * Math.pow(bitcoinAgeDays, trend_b)`
where `bitcoinAgeDays` is the whole-day difference from the genesis date. -/
def calculatePowerLawPrice (dl : DataLoader) (x : Ymd) : ℚ :=
  dl.trend_a * dl.trendPow (dayNumber x - dayNumber genesisDate)

/-- `getPriceData`: exact historical record when cached; synthesized
power-law price for dates after the last historical date (a JS comparison
against `null` compares against the epoch when the data is empty); `null`
for an in-range gap day. -/
def getPriceData (dl : DataLoader) (x : Ymd) : Option DayData :=
  match lookupRow dl x with
  | some r =>
      some ⟨x, r.price, cacheVal r.ahr999, cacheVal r.ratioDca, cacheVal r.ratioTrend⟩
  | none =>
      if (match getLastHistoricalDate dl with
          | some l => decide (dayNumber x > dayNumber l)
          | none => decide (dayNumber x > 0)) then
        some ⟨x, calculatePowerLawPrice dl x, none, none, none⟩
      else none

/-- `calculateAHR999`: on-the-fly composite valuation index from a rolling
price window; JS division can produce `Infinity`/`NaN` here, hence
`JsNum`. -/
def calculateAHR999 (dl : DataLoader) (x : Ymd) (priceHistory : List ℚ) :
    Option JsNum :=
  if priceHistory.length < dcaWindow then none
  else
    let last200 := priceHistory.drop (priceHistory.length - dcaWindow)
    let sumInverse :=
      last200.foldl (fun s p => s.add ((JsNum.fin 1).div (JsNum.fin p))) (JsNum.fin 0)
    let dcaCost := (JsNum.fin (dcaWindow : ℚ)).div sumInverse
    let trendValue := calculatePowerLawPrice dl x
    let currentPrice := priceHistory.getLastD 0
    let dcaRat := (JsNum.fin currentPrice).div dcaCost
    let trendRat := (JsNum.fin currentPrice).div (JsNum.fin trendValue)
    some (dcaRat.mul trendRat)

/-- `getHistoricalAHR999Values`: products of the two parsed ratio columns,
skipping rows where either fails `parseFloat` (note: reads the raw rows,
so a `0` ratio is kept here, unlike in the price cache). -/
def getHistoricalAHR999Values (dl : DataLoader) : List ℚ :=
  dl.rows.filterMap fun r =>
    match r.ratioDca, r.ratioTrend with
    | some a, some b => some (a * b)
    | _, _ => none

end DataLoader

/-! ## Utility functions -/

/-- `getPercentileValue`: ascending sort, `floor` index, clamped to the
last element; `none` models the JS `undefined` read on an empty array. -/
def getPercentileValue (arr : List ℚ) (percentile : ℚ) : Option ℚ :=
  let sorted := arr.mergeSort fun a b => decide (a ≤ b)
  let idx : Int := Int.floor (percentile / 100 * (sorted.length : ℚ))
  sorted.get? (min idx ((sorted.length : Int) - 1)).toNat

/-- `isFirstDayOfMonth(date, prevDate)`: true with no previous day, else a
JS `getMonth()` inequality. -/
def isFirstDayOfMonth (x : Ymd) (prev : Option Ymd) : Bool :=
  match prev with
  | none => true
  | some p => decide (x.m ≠ p.m)

/-- `getCompleteMonthsCount`: the source steps a cursor from the first of
the start month to the first of the end month, one calendar month per
iteration, counting each — i.e. the number of month indices from
`monthIdx s` to `monthIdx e` inclusive. -/
def getCompleteMonthsCount (s e : Ymd) : Int :=
  if monthIdx s ≤ monthIdx e then monthIdx e - monthIdx s + 1 else 0

/-! ## Result data structures -/

/-- `class PortfolioState`. -/
structure PortfolioState where
  date : Ymd
  cashBalance : ℚ
  btcBalance : ℚ
  totalInvested : ℚ
  portfolioValue : ℚ
  deriving DecidableEq, Repr

/-- `class Transaction`. -/
structure Transaction where
  date : Ymd
  investAmount : ℚ
  btcAmount : ℚ
  price : ℚ
  ahr999 : Option ℚ
  deriving DecidableEq, Repr

/-- `class BacktestResult` after `BacktestEngine.run` has filled it in. -/
structure BacktestResult where
  totalInvested : ℚ
  finalBtcBalance : ℚ
  finalPortfolioValue : ℚ
  totalReturn : ℚ
  annualizedReturn : JsNum
  portfolioHistory : List PortfolioState
  transactions : List Transaction
  startDate : Ymd
  endDate : Ymd
  durationDays : Int
  deriving DecidableEq, Repr

/-! ## Strategies

The engine dispatches on the concrete strategy class via `instanceof`;
`StratTag` carries exactly the class identity (plus the budget-mode flags
the engine reads off the instance).  A `Strat σ` bundles the tag with the
methods the engine invokes, each acting on the strategy's private mutable
state `σ`. -/

inductive StratTag where
  | dailyDCA
  | monthlyDCA
  | ahr999Percentile (unlimitedBudget : Bool)
  | dynamicAHR999 (enableMonthlyCap : Bool)
  deriving DecidableEq, Repr

structure Strat (σ : Type) where
  tag : StratTag
  init : σ
  onMonthStart : Ymd → σ → σ
  updatePriceHistory : ℚ → σ → σ
  shouldInvest : Ymd → ℚ → DayData → σ → ℚ × σ

/-- State of the base `class Strategy` (`cashBuffer`, rolling
`priceHistory`). -/
structure BaseState where
  cashBuffer : ℚ
  priceHistory : List ℚ
  deriving DecidableEq, Repr

/-- `Strategy.updatePriceHistory`: push, then evict the oldest entry once
the window exceeds `DCA_WINDOW + 100` elements. -/
def baseUpdatePriceHistory (price : ℚ) (h : List ℚ) : List ℚ :=
  let pushed := h ++ [price]
  if pushed.length > DataLoader.dcaWindow + 100 then pushed.drop 1 else pushed

/-- `class DailyDCAStrategy`: a fixed `monthlyBudget / 30.44` every day;
`onMonthStart` is overridden to not accumulate a cash buffer. -/
def dailyDCAStrategy (monthlyBudget : ℚ) : Strat BaseState where
  tag := .dailyDCA
  init := ⟨0, []⟩
  onMonthStart := fun _ s => s
  updatePriceHistory := fun p s => ⟨s.cashBuffer, baseUpdatePriceHistory p s.priceHistory⟩
  shouldInvest := fun _ _ _ s => (monthlyBudget / DataLoader.daysPerMonth, s)

/-- `class MonthlyDCAStrategy`: the full budget on the configured day of
month, zero otherwise; inherits the base `onMonthStart` (which credits the
unused `cashBuffer`). -/
def monthlyDCAStrategy (monthlyBudget : ℚ) (dayOfMonth : Int) : Strat BaseState where
  tag := .monthlyDCA
  init := ⟨0, []⟩
  onMonthStart := fun _ s => ⟨s.cashBuffer + monthlyBudget, s.priceHistory⟩
  updatePriceHistory := fun p s => ⟨s.cashBuffer, baseUpdatePriceHistory p s.priceHistory⟩
  shouldInvest := fun x _ _ s => (if x.d = dayOfMonth then monthlyBudget else 0, s)

/-- Tier multipliers plus the unlimited-budget flag of
`AHR999PercentileStrategy` (after the constructor's defaulting). -/
structure PercConfig where
  p10 : ℚ
  p25 : ℚ
  p50 : ℚ
  p75 : ℚ
  p90 : ℚ
  p100 : ℚ
  unlimitedBudget : Bool
  deriving DecidableEq, Repr

structure PercState where
  cashBuffer : ℚ
  priceHistory : List ℚ
  q10 : Option ℚ
  q25 : Option ℚ
  q50 : Option ℚ
  q75 : Option ℚ
  q90 : Option ℚ
  deriving DecidableEq, Repr

/-- JS `x < bound` where the bound may be `undefined` (empty historical
series): comparison with `undefined` is false. -/
def jsLtOpt (v : JsNum) (bound : Option ℚ) : Bool :=
  match bound with
  | some q => v.lt (.fin q)
  | none => false

/-- `AHR999PercentileStrategy.shouldInvest`. -/
def percShouldInvest (dl : DataLoader) (cfg : PercConfig) (monthlyBudget : ℚ)
    (x : Ymd) (dayData : DayData) (s : PercState) : ℚ × PercState :=
  let a : Option JsNum :=
    match dayData.ahr999 with
    | some v => some (.fin v)
    | none => dl.calculateAHR999 x s.priceHistory
  match a with
  | none => (0, s)
  | some v =>
    if v.isNaN then (0, s)
    else
      let mult : ℚ :=
        if jsLtOpt v s.q10 then cfg.p10
        else if jsLtOpt v s.q25 then cfg.p25
        else if jsLtOpt v s.q50 then cfg.p50
        else if jsLtOpt v s.q75 then cfg.p75
        else if jsLtOpt v s.q90 then cfg.p90
        else cfg.p100
      (monthlyBudget / DataLoader.daysPerMonth * mult, s)

/-- `class AHR999PercentileStrategy`: percentile boundaries are computed
once from the historical index series when the engine calls
`initialize()`; `onMonthStart` is overridden to not accumulate cash. -/
def ahr999PercentileStrategy (dl : DataLoader) (monthlyBudget : ℚ)
    (cfg : PercConfig) : Strat PercState where
  tag := .ahr999Percentile cfg.unlimitedBudget
  init :=
    let hist := dl.getHistoricalAHR999Values
    ⟨0, [], getPercentileValue hist 10, getPercentileValue hist 25,
      getPercentileValue hist 50, getPercentileValue hist 75,
      getPercentileValue hist 90⟩
  onMonthStart := fun _ s => s
  updatePriceHistory := fun p s => { s with priceHistory := baseUpdatePriceHistory p s.priceHistory }
  shouldInvest := fun x _ dayData s => percShouldInvest dl cfg monthlyBudget x dayData s

/-! ## BacktestEngine -/

namespace BacktestEngine

/-- Mutable state of `BacktestEngine.run`'s day loop, together with the
result lists it appends to. -/
structure RunState (σ : Type) where
  cashBalance : ℚ
  btcBalance : ℚ
  totalInvested : ℚ
  prevDate : Option Ymd
  monthsElapsed : Int
  stratState : σ
  transactions : List Transaction
  portfolioHistory : List PortfolioState

/-- `durationDays`: whole-day difference plus one, inclusive of both
endpoints. -/
def durationDays (s e : Ymd) : Int := dayNumber e - dayNumber s + 1

/-- The per-strategy-class total-budget computation at the top of `run`. -/
def computeTotalBudget (tag : StratTag) (s e : Ymd) (monthlyBudget : ℚ) : ℚ :=
  match tag with
  | .dailyDCA => (durationDays s e : ℚ) * (monthlyBudget / DataLoader.daysPerMonth)
  | .ahr999Percentile u =>
      if u then (getCompleteMonthsCount s e : ℚ) * monthlyBudget
      else (durationDays s e : ℚ) * (monthlyBudget / DataLoader.daysPerMonth)
  | .dynamicAHR999 cap =>
      if cap then (durationDays s e : ℚ) * (monthlyBudget / DataLoader.daysPerMonth)
      else (getCompleteMonthsCount s e : ℚ) * monthlyBudget
  | .monthlyDCA => (getCompleteMonthsCount s e : ℚ) * monthlyBudget

/-- The engine's `isUnlimitedBudget` check inside the trade branch. -/
def isUnlimitedBudgetTag : StratTag → Bool
  | .ahr999Percentile u => u
  | .dynamicAHR999 cap => !cap
  | _ => false

/-- The engine's `instanceof AHR999PercentileStrategy ||
instanceof DynamicAHR999Strategy` checks (cash accounting and portfolio
valuation). -/
def isAHR999FamilyTag : StratTag → Bool
  | .ahr999Percentile _ => true
  | .dynamicAHR999 _ => true
  | _ => false

/-- Day number of the JS `new Date(year, month + 1, 0)`: the last day of
`x`'s month. -/
def monthEndNumber (x : Ymd) : Int :=
  dayNumber ⟨x.y, x.m, monthLength x.y x.m⟩

/-- Daily-DCA month-boundary credit: pro-rated slice of the monthly budget
covering the days of the current month inside the run's range. -/
def proportionalBudget (s e cur : Ymd) (monthlyBudget : ℚ) : ℚ :=
  let periodStart := if dayNumber cur > dayNumber s then dayNumber cur else dayNumber s
  let periodEnd := if dayNumber e < monthEndNumber cur then dayNumber e else monthEndNumber cur
  let daysInPeriod := periodEnd - periodStart + 1
  (daysInPeriod : ℚ) / DataLoader.daysPerMonth * monthlyBudget

/-- Month-boundary cash crediting, by strategy class: Daily DCA gets the
pro-rated slice, the AHR999 family gets nothing, everything else (Monthly
DCA) gets the full monthly budget. -/
def creditCash (tag : StratTag) (s e cur : Ymd) (monthlyBudget cash : ℚ) : ℚ :=
  match tag with
  | .dailyDCA => cash + proportionalBudget s e cur monthlyBudget
  | .ahr999Percentile _ => cash
  | .dynamicAHR999 _ => cash
  | .monthlyDCA => cash + monthlyBudget

/-- `dayData.ahr999 || null` when recording a transaction: a zero index is
falsy and is stored as `null`. -/
def jsOrNull (o : Option ℚ) : Option ℚ :=
  match o with
  | some v => if v = 0 then none else some v
  | none => none

/-- Month-boundary handling at the top of each loop iteration (runs
whether or not the day has a price): `onMonthStart`, cash crediting,
`monthsElapsed`. -/
def boundaryPhase {σ : Type} (strat : Strat σ) (s e : Ymd) (monthlyBudget : ℚ)
    (st : RunState σ) (cur : Ymd) : RunState σ :=
  if isFirstDayOfMonth cur st.prevDate then
    { st with
      stratState := strat.onMonthStart cur st.stratState
      cashBalance := creditCash strat.tag s e cur monthlyBudget st.cashBalance
      monthsElapsed := st.monthsElapsed + 1 }
  else st

/-- The `actualInvestment` computation of the trade branch: pass-through
for unlimited-budget strategies, otherwise capped by the remaining total
budget (clamped at 0). -/
def executedAmount (tag : StratTag) (totalBudget totalInvested requested : ℚ) : ℚ :=
  if isUnlimitedBudgetTag tag then requested
  else min requested (max 0 (totalBudget - totalInvested))

/-- The trade-execution and portfolio-recording block of a loop iteration
with a valid price (`dayData && dayData.price > 0`). -/
def tradeAndRecord {σ : Type} (strat : Strat σ) (s e : Ymd) (totalBudget : ℚ)
    (st1 : RunState σ) (cur : Ymd) (dayData : DayData) : RunState σ :=
  let price := dayData.price
  let s1 := strat.updatePriceHistory price st1.stratState
  let inv := strat.shouldInvest cur price dayData s1
  let investAmount := inv.1
  let hasTrade_st :=
    if investAmount > 0 then
      let actualInvestment :=
        executedAmount strat.tag totalBudget st1.totalInvested investAmount
      if actualInvestment > 0 then
        let btcBought := actualInvestment / price
        (true,
          { st1 with
            stratState := inv.2
            btcBalance := st1.btcBalance + btcBought
            totalInvested := st1.totalInvested + actualInvestment
            cashBalance :=
              if isAHR999FamilyTag strat.tag then st1.cashBalance
              else st1.cashBalance - actualInvestment
            transactions := st1.transactions ++
              [(⟨cur, actualInvestment, btcBought, price, jsOrNull dayData.ahr999⟩ : Transaction)] })
      else (false, { st1 with stratState := inv.2 })
    else (false, { st1 with stratState := inv.2 })
  let hasTransaction := hasTrade_st.1
  let stT := hasTrade_st.2
  let portfolioValue :=
    if isAHR999FamilyTag strat.tag then stT.btcBalance * price
    else stT.cashBalance + stT.btcBalance * price
  let daysSinceStart := dayNumber cur - dayNumber s
  let isSamplingDay : Bool := decide (daysSinceStart % 7 = 0)
  let isEndDate : Bool := decide (dayNumber cur = dayNumber e)
  if isSamplingDay || hasTransaction || isEndDate then
    { stT with portfolioHistory := stT.portfolioHistory ++
        [(⟨cur, stT.cashBalance, stT.btcBalance, stT.totalInvested, portfolioValue⟩ : PortfolioState)] }
  else stT

/-- One iteration of the `while (currentDate <= endDate)` loop. -/
def stepDay (dl : DataLoader) {σ : Type} (strat : Strat σ) (s e : Ymd)
    (monthlyBudget totalBudget : ℚ) (st : RunState σ) (cur : Ymd) : RunState σ :=
  let st1 := boundaryPhase strat s e monthlyBudget st cur
  let st2 :=
    match dl.getPriceData cur with
    | some dayData =>
      if dayData.price > 0 then tradeAndRecord strat s e totalBudget st1 cur dayData
      else st1
    | none => st1
  { st2 with prevDate := some cur }

/-- Number of iterations of the day loop: the loop starts at `startDate`,
advances one calendar day per iteration (`dayNumber` increases by exactly
1, `dayNumber_nextDay`), and stops once `currentDate > endDate`. -/
def numDays (s e : Ymd) : Nat := (dayNumber e - dayNumber s + 1).toNat

/-- The calendar days the loop visits, in order. -/
def dayList (s : Ymd) (n : Nat) : List Ymd := (List.range n).map (shiftDays s)

def initState {σ : Type} (strat : Strat σ) : RunState σ :=
  ⟨0, 0, 0, none, 0, strat.init, [], []⟩

/-- The day loop of `run` (after `strategy.initialize()`). -/
def runCore (dl : DataLoader) {σ : Type} (strat : Strat σ) (s e : Ymd)
    (monthlyBudget totalBudget : ℚ) : RunState σ :=
  (dayList s (numDays s e)).foldl (stepDay dl strat s e monthlyBudget totalBudget)
    (initState strat)

/-- `this.dataLoader.getPriceData(endDate)?.price || 0`. -/
def finalPrice (dl : DataLoader) (e : Ymd) : ℚ :=
  match dl.getPriceData e with
  | some dayData => dayData.price
  | none => 0

/-- `BacktestEngine.run`.  `jsPow` is `Math.pow` for the annualized-return
formula (transcendental, hence a parameter); the `isFinite(returnRatio)`
and `isFinite(yearsElapsed)` guards of the source are identically true for
exact rationals and are omitted. -/
def run (jsPow : ℚ → ℚ → JsNum) (dl : DataLoader) {σ : Type} (strat : Strat σ)
    (s e : Ymd) (monthlyBudget : ℚ) : BacktestResult :=
  let dur := durationDays s e
  let totalBudget := computeTotalBudget strat.tag s e monthlyBudget
  let fst := runCore dl strat s e monthlyBudget totalBudget
  let fp := finalPrice dl e
  let fpv : ℚ :=
    if fst.totalInvested = 0 then 0
    else if isAHR999FamilyTag strat.tag then fst.btcBalance * fp
    else fst.cashBalance + fst.btcBalance * fp
  let totRet_ann : ℚ × JsNum :=
    if fst.totalInvested > 0 then
      let tr := (fpv - fst.totalInvested) / fst.totalInvested * 100
      if dur ≥ 365 then
        let returnRat := fpv / fst.totalInvested
        let yearsElapsed : ℚ := (dur : ℚ) / (1461 / 4)
        if returnRat > 0 ∧ yearsElapsed > 0 then
          let annualized := ((jsPow returnRat (1 / yearsElapsed)).sub (.fin 1)).mul (.fin 100)
          if annualized.isFinite && annualized.lt (.fin 1000000) then (tr, annualized)
          else (tr, .fin (tr / yearsElapsed))
        else (tr, .fin (tr / yearsElapsed))
      else (tr, .inf true)
    else (0, .fin 0)
  { totalInvested := fst.totalInvested
    finalBtcBalance := fst.btcBalance
    finalPortfolioValue := fpv
    totalReturn := totRet_ann.1
    annualizedReturn := totRet_ann.2
    portfolioHistory := fst.portfolioHistory
    transactions := fst.transactions
    startDate := s
    endDate := e
    durationDays := dur }

end BacktestEngine

/-- `BacktestUI.runBacktest`'s input validation ahead of engine creation:
a falsy budget, `startDate >= endDate`, or a non-positive budget aborts
before any simulation work; only then is the engine built and run. -/
def runBacktest (jsPow : ℚ → ℚ → JsNum) (dl : DataLoader) {σ : Type}
    (strat : Strat σ) (s e : Ymd) (monthlyBudget : ℚ) : Option BacktestResult :=
  if monthlyBudget = 0 then none
  else if dayNumber s ≥ dayNumber e then none
  else if monthlyBudget ≤ 0 then none
  else some (BacktestEngine.run jsPow dl strat s e monthlyBudget)

/-! ## Engine infrastructure lemmas -/

lemma foldl_preserve {α β : Type _} {P : β → Prop} {f : β → α → β} {l : List α}
    {b : β} (hb : P b) (hf : ∀ x ∈ l, ∀ st, P st → P (f st x)) :
    P (l.foldl f b) := by
  induction l generalizing b with
  | nil => exact hb
  | cons a t ih =>
      exact ih (hf a (by simp) b hb) fun x hx st hst => hf x (by simp [hx]) st hst

namespace BacktestEngine

section EngineLemmas

variable (dl : DataLoader) {σ : Type} (strat : Strat σ) (s e : Ymd) (mb tb : ℚ)

/-- The boundary phase only touches `stratState`, `cashBalance` and
`monthsElapsed`. -/
lemma boundaryPhase_fields (st : RunState σ) (cur : Ymd) :
    (boundaryPhase strat s e mb st cur).totalInvested = st.totalInvested ∧
    (boundaryPhase strat s e mb st cur).btcBalance = st.btcBalance ∧
    (boundaryPhase strat s e mb st cur).transactions = st.transactions ∧
    (boundaryPhase strat s e mb st cur).portfolioHistory = st.portfolioHistory ∧
    (boundaryPhase strat s e mb st cur).prevDate = st.prevDate := by
  unfold boundaryPhase
  split_ifs <;> simp

/-- Field-level description of `tradeAndRecord`. -/
lemma tradeAndRecord_spec (st1 : RunState σ) (cur : Ymd) (dd : DayData) :
    let inv := strat.shouldInvest cur dd.price dd
      (strat.updatePriceHistory dd.price st1.stratState)
    let exec := executedAmount strat.tag tb st1.totalInvested inv.1
    let traded := 0 < inv.1 ∧ 0 < exec
    let st' := tradeAndRecord strat s e tb st1 cur dd
    st'.stratState = inv.2 ∧
    st'.totalInvested = st1.totalInvested + (if traded then exec else 0) ∧
    st'.btcBalance = st1.btcBalance + (if traded then exec / dd.price else 0) ∧
    st'.cashBalance = (if traded ∧ isAHR999FamilyTag strat.tag = false then
      st1.cashBalance - exec else st1.cashBalance) ∧
    st'.transactions = st1.transactions ++
      (if traded then
        [(⟨cur, exec, exec / dd.price, dd.price, jsOrNull dd.ahr999⟩ : Transaction)]
       else []) ∧
    st'.prevDate = st1.prevDate ∧
    st'.monthsElapsed = st1.monthsElapsed ∧
    (st'.portfolioHistory = st1.portfolioHistory ∨
      st'.portfolioHistory = st1.portfolioHistory ++
        [(⟨cur, st'.cashBalance, st'.btcBalance, st'.totalInvested,
          if isAHR999FamilyTag strat.tag then st'.btcBalance * dd.price
          else st'.cashBalance + st'.btcBalance * dd.price⟩ : PortfolioState)]) := by
  dsimp only [tradeAndRecord]
  set inv := strat.shouldInvest cur dd.price dd
    (strat.updatePriceHistory dd.price st1.stratState) with hinv
  set exec := executedAmount strat.tag tb st1.totalInvested inv.1 with hexec
  by_cases h1 : inv.1 > 0
  · by_cases h2 : exec > 0
    · simp only [h1, if_true, h2]
      split_ifs <;> simp_all
    · simp only [h1, if_true, h2, if_false]
      split_ifs <;> simp_all
  · simp only [h1, if_false]
    split_ifs <;> simp_all

/-- `stepDay` on a day with no usable price: only the boundary phase and
`prevDate` update run. -/
lemma stepDay_of_skip (st : RunState σ) (cur : Ymd)
    (h : dl.getPriceData cur = none ∨
      ∃ dd, dl.getPriceData cur = some dd ∧ ¬ dd.price > 0) :
    stepDay dl strat s e mb tb st cur =
      { boundaryPhase strat s e mb st cur with prevDate := some cur } := by
  rcases h with h | ⟨dd, h, hp⟩
  · simp [stepDay, h]
  · simp [stepDay, h, hp]

/-- `stepDay` on a day with a valid price. -/
lemma stepDay_of_priced (st : RunState σ) (cur : Ymd) (dd : DayData)
    (h : dl.getPriceData cur = some dd) (hp : dd.price > 0) :
    stepDay dl strat s e mb tb st cur =
      { tradeAndRecord strat s e tb (boundaryPhase strat s e mb st cur) cur dd with
        prevDate := some cur } := by
  simp [stepDay, h, hp]

/-- State after the first `k` iterations of the day loop. -/
def stateAt (k : Nat) : RunState σ :=
  ((dayList s (numDays s e)).take k).foldl (stepDay dl strat s e mb tb)
    (initState strat)

lemma stateAt_zero : stateAt dl strat s e mb tb 0 = initState strat := rfl

lemma stateAt_succ {k : Nat} (hk : k < numDays s e) :
    stateAt dl strat s e mb tb (k + 1) =
      stepDay dl strat s e mb tb (stateAt dl strat s e mb tb k) (shiftDays s k) := by
  unfold stateAt dayList
  rw [← List.map_take, ← List.map_take, List.take_range, List.take_range,
    Nat.min_eq_left hk.le, Nat.min_eq_left (Nat.succ_le_of_lt hk), List.range_succ,
    List.map_append, List.foldl_append]
  simp

lemma runCore_eq_stateAt :
    runCore dl strat s e mb tb = stateAt dl strat s e mb tb (numDays s e) := by
  unfold runCore stateAt
  rw [List.take_of_length_le]
  simp [dayList]

/-- Invariant style induction over the day loop. -/
lemma stateAt_ind {P : Nat → RunState σ → Prop}
    (h0 : P 0 (initState strat))
    (hstep : ∀ k, k < numDays s e → P k (stateAt dl strat s e mb tb k) →
      P (k + 1) (stateAt dl strat s e mb tb (k + 1))) :
    ∀ k, k ≤ numDays s e → P k (stateAt dl strat s e mb tb k) := by
  intro k
  induction k with
  | zero => intro _; exact h0
  | succ n ih => intro hn; exact hstep n (by omega) (ih (by omega))

/-- The running totals are always the sums over the recorded transaction
list, and recorded transactions have positive amounts. -/
def SumInv {σ : Type} (st : RunState σ) : Prop :=
  st.totalInvested = (st.transactions.map Transaction.investAmount).sum ∧
  st.btcBalance = (st.transactions.map Transaction.btcAmount).sum ∧
  ∀ t ∈ st.transactions, 0 < t.investAmount

lemma stepDay_sumInv (st : RunState σ) (cur : Ymd) (h : SumInv st) :
    SumInv (stepDay dl strat s e mb tb st cur) := by
  obtain ⟨h1, h2, h3⟩ := h
  obtain ⟨b1, b2, b3, b4, b5⟩ := boundaryPhase_fields strat s e mb st cur
  rcases hgp : dl.getPriceData cur with _ | dd
  · rw [stepDay_of_skip dl strat s e mb tb st cur (Or.inl hgp)]
    exact ⟨by simp [b1, b3, h1], by simp [b2, b3, h2], by simpa [b3] using h3⟩
  · by_cases hp : dd.price > 0
    · rw [stepDay_of_priced dl strat s e mb tb st cur dd hgp hp]
      have hs := tradeAndRecord_spec strat s e tb
        (boundaryPhase strat s e mb st cur) cur dd
      dsimp only at hs
      obtain ⟨-, t2, t3, -, t5, -, -, -⟩ := hs
      refine ⟨?_, ?_, ?_⟩ <;> dsimp only [SumInv] <;>
        split_ifs at t2 t3 t5 with htr
      · simp [t2, t5, b1, b3, h1]
      · simp [t2, t5, b1, b3, h1]
      · simp [t3, t5, b2, b3, h2]
      · simp [t3, t5, b2, b3, h2]
      · intro t ht
        rw [t5, b3] at ht
        rcases List.mem_append.mp ht with ht | ht
        · exact h3 t ht
        · simp at ht
          rw [ht]
          exact htr.2
      · intro t ht
        rw [t5, b3] at ht
        simp at ht
        exact h3 t ht
    · rw [stepDay_of_skip dl strat s e mb tb st cur (Or.inr ⟨dd, hgp, hp⟩)]
      exact ⟨by simp [b1, b3, h1], by simp [b2, b3, h2], by simpa [b3] using h3⟩

lemma runCore_sumInv : SumInv (runCore dl strat s e mb tb) := by
  unfold runCore
  exact foldl_preserve (by simp [initState, SumInv])
    fun x _ st hst => stepDay_sumInv dl strat s e mb tb st x hst

/-- Projections of `BacktestEngine.run` in terms of the loop's final
state. -/
lemma run_fields (jsPow : ℚ → ℚ → JsNum) :
    let fst := runCore dl strat s e mb (computeTotalBudget strat.tag s e mb)
    let r := run jsPow dl strat s e mb
    r.totalInvested = fst.totalInvested ∧
    r.finalBtcBalance = fst.btcBalance ∧
    r.transactions = fst.transactions ∧
    r.portfolioHistory = fst.portfolioHistory ∧
    r.durationDays = durationDays s e ∧
    r.finalPortfolioValue =
      (if fst.totalInvested = 0 then 0
       else if isAHR999FamilyTag strat.tag then fst.btcBalance * finalPrice dl e
       else fst.cashBalance + fst.btcBalance * finalPrice dl e) := by
  exact ⟨rfl, rfl, rfl, rfl, rfl, rfl⟩

/-- `totalReturn` when nothing was invested stays at its initial 0. -/
lemma run_totalReturn_of_zero (jsPow : ℚ → ℚ → JsNum)
    (h : (runCore dl strat s e mb (computeTotalBudget strat.tag s e mb)).totalInvested = 0) :
    (run jsPow dl strat s e mb).totalReturn = 0 := by
  unfold run
  simp only [h]
  norm_num

end EngineLemmas

end BacktestEngine

/-- A list of transactions with positive amounts whose amount-sum is zero
is empty. -/
lemma tx_nil_of_sum_zero {l : List Transaction}
    (hpos : ∀ t ∈ l, 0 < t.investAmount)
    (hsum : (l.map Transaction.investAmount).sum = 0) : l = [] := by
  cases l with
  | nil => rfl
  | cons a t =>
      exfalso
      have h1 : 0 < a.investAmount := hpos a (by simp)
      have h2 : 0 ≤ (t.map Transaction.investAmount).sum := by
        apply List.sum_nonneg
        intro x hx
        simp only [List.mem_map] at hx
        obtain ⟨u, hu, rfl⟩ := hx
        exact (hpos u (by simp [hu])).le
      simp only [List.map_cons, List.sum_cons] at hsum
      linarith

/-- With all six tier multipliers zero, the percentile strategy always
requests 0. -/
lemma percShouldInvest_zero (dl : DataLoader) (cfg : PercConfig) (mb : ℚ)
    (x : Ymd) (dd : DayData) (sP : PercState)
    (hcfg : cfg.p10 = 0 ∧ cfg.p25 = 0 ∧ cfg.p50 = 0 ∧ cfg.p75 = 0 ∧
      cfg.p90 = 0 ∧ cfg.p100 = 0) :
    (percShouldInvest dl cfg mb x dd sP).1 = 0 := by
  obtain ⟨c1, c2, c3, c4, c5, c6⟩ := hcfg
  unfold percShouldInvest
  cases hq : dd.ahr999 with
  | some v =>
      simp only [hq]
      split_ifs <;> simp [c1, c2, c3, c4, c5, c6]
  | none =>
      simp only [hq]
      cases hc : dl.calculateAHR999 x sP.priceHistory with
      | none => simp [hc]
      | some v =>
          simp only [hc]
          split_ifs <;> simp [c1, c2, c3, c4, c5, c6]

namespace BacktestEngine

section ZeroRunLemmas

variable (dl : DataLoader) (s e : Ymd) (mb tb : ℚ)

/-- Over an all-zero-multiplier percentile strategy, the loop never
trades. -/
lemma runCore_perc_zero (u : Bool) :
    let strat := ahr999PercentileStrategy dl mb ⟨0, 0, 0, 0, 0, 0, u⟩
    (runCore dl strat s e mb tb).totalInvested = 0 ∧
    (runCore dl strat s e mb tb).btcBalance = 0 ∧
    (runCore dl strat s e mb tb).transactions = [] := by
  intro strat
  have : (runCore dl strat s e mb tb).totalInvested = 0 ∧
      (runCore dl strat s e mb tb).btcBalance = 0 ∧
      (runCore dl strat s e mb tb).transactions = [] := by
    unfold runCore
    refine @foldl_preserve Ymd (RunState PercState)
      (fun st => st.totalInvested = 0 ∧ st.btcBalance = 0 ∧ st.transactions = [])
      (stepDay dl strat s e mb tb) (dayList s (numDays s e)) (initState strat)
      (by simp [initState]) ?_
    intro cur _ st hst
    obtain ⟨h1, h2, h3⟩ := hst
    obtain ⟨b1, b2, b3, b4, b5⟩ := boundaryPhase_fields strat s e mb st cur
    rcases hgp : dl.getPriceData cur with _ | dd
    · rw [stepDay_of_skip dl strat s e mb tb st cur (Or.inl hgp)]
      exact ⟨by simp [b1, h1], by simp [b2, h2], by simp [b3, h3]⟩
    · by_cases hp : dd.price > 0
      · rw [stepDay_of_priced dl strat s e mb tb st cur dd hgp hp]
        have hs := tradeAndRecord_spec strat s e tb
          (boundaryPhase strat s e mb st cur) cur dd
        dsimp only at hs
        obtain ⟨-, t2, t3, -, t5, -, -, -⟩ := hs
        have hz : (strat.shouldInvest cur dd.price dd
            (strat.updatePriceHistory dd.price
              (boundaryPhase strat s e mb st cur).stratState)).1 = 0 := by
          exact percShouldInvest_zero dl _ mb cur dd _
            ⟨rfl, rfl, rfl, rfl, rfl, rfl⟩
        rw [hz] at t2 t3 t5
        norm_num at t2 t3 t5
        exact ⟨by simp [t2, b1, h1], by simp [t3, b2, h2], by simp [t5, b3, h3]⟩
      · rw [stepDay_of_skip dl strat s e mb tb st cur (Or.inr ⟨dd, hgp, hp⟩)]
        exact ⟨by simp [b1, h1], by simp [b2, h2], by simp [b3, h3]⟩
  exact this

end ZeroRunLemmas

end BacktestEngine

open BacktestEngine in
/-- **C1** (invariants): for every completed backtest run, the result's
`totalInvested` equals the sum of `investAmount` over all recorded
transactions, and `finalBtcBalance` equals the sum of `btcAmount`,
exactly. -/
theorem C1_result_totals_are_transaction_sums (jsPow : ℚ → ℚ → JsNum)
    (dl : DataLoader) {σ : Type} (strat : Strat σ) (s e : Ymd) (mb : ℚ) :
    (run jsPow dl strat s e mb).totalInvested =
      (((run jsPow dl strat s e mb).transactions).map Transaction.investAmount).sum ∧
    (run jsPow dl strat s e mb).finalBtcBalance =
      (((run jsPow dl strat s e mb).transactions).map Transaction.btcAmount).sum := by
  obtain ⟨f1, f2, f3, -, -, -⟩ := run_fields dl strat s e mb jsPow
  have hs := runCore_sumInv dl strat s e mb (computeTotalBudget strat.tag s e mb)
  exact ⟨by rw [f1, f3]; exact hs.1, by rw [f2, f3]; exact hs.2.1⟩

open BacktestEngine in
/-- **C2** (invariants): any completed run with `totalInvested = 0` has
zero final portfolio value, zero total return, zero BTC balance and an
empty transaction list; in particular an all-zero-multiplier
percentile-tiered run over any date range invests nothing, so unused
budget is never counted as portfolio value. -/
theorem C2_zero_invested_means_zero_portfolio (jsPow : ℚ → ℚ → JsNum)
    (dl : DataLoader) :
    (∀ {σ : Type} (strat : Strat σ) (s e : Ymd) (mb : ℚ),
      (run jsPow dl strat s e mb).totalInvested = 0 →
        (run jsPow dl strat s e mb).finalPortfolioValue = 0 ∧
        (run jsPow dl strat s e mb).totalReturn = 0 ∧
        (run jsPow dl strat s e mb).finalBtcBalance = 0 ∧
        (run jsPow dl strat s e mb).transactions = []) ∧
    (∀ (s e : Ymd) (mb : ℚ) (u : Bool),
      (run jsPow dl (ahr999PercentileStrategy dl mb ⟨0, 0, 0, 0, 0, 0, u⟩) s e mb).totalInvested = 0 ∧
      (run jsPow dl (ahr999PercentileStrategy dl mb ⟨0, 0, 0, 0, 0, 0, u⟩) s e mb).finalBtcBalance = 0 ∧
      (run jsPow dl (ahr999PercentileStrategy dl mb ⟨0, 0, 0, 0, 0, 0, u⟩) s e mb).finalPortfolioValue = 0 ∧
      (run jsPow dl (ahr999PercentileStrategy dl mb ⟨0, 0, 0, 0, 0, 0, u⟩) s e mb).transactions = []) := by
  constructor
  · intro σ strat s e mb hti
    obtain ⟨f1, f2, f3, -, -, f6⟩ := run_fields dl strat s e mb jsPow
    have hs := runCore_sumInv dl strat s e mb (computeTotalBudget strat.tag s e mb)
    have hti0 : (runCore dl strat s e mb
        (computeTotalBudget strat.tag s e mb)).totalInvested = 0 := by
      rw [← f1]; exact hti
    have htx : (runCore dl strat s e mb
        (computeTotalBudget strat.tag s e mb)).transactions = [] :=
      tx_nil_of_sum_zero hs.2.2 (by rw [← hs.1]; exact hti0)
    refine ⟨?_, ?_, ?_, ?_⟩
    · rw [f6, if_pos hti0]
    · exact run_totalReturn_of_zero dl strat s e mb jsPow hti0
    · rw [f2, hs.2.1, htx]; simp
    · rw [f3, htx]
  · intro s e mb u
    have hz := runCore_perc_zero dl s e mb
      (computeTotalBudget (ahr999PercentileStrategy dl mb ⟨0, 0, 0, 0, 0, 0, u⟩).tag s e mb) u
    dsimp only at hz
    obtain ⟨z1, z2, z3⟩ := hz
    obtain ⟨f1, f2, f3, -, -, f6⟩ :=
      run_fields dl (ahr999PercentileStrategy dl mb ⟨0, 0, 0, 0, 0, 0, u⟩) s e mb jsPow
    refine ⟨?_, ?_, ?_, ?_⟩
    · rw [f1]; exact z1
    · rw [f2]; exact z2
    · rw [f6, if_pos z1]
    · rw [f3]; exact z3

/-! ## Witness fixtures: small concrete data sets -/

/-- A one-row data set (2020-01-01, price 100, all indicator columns 1). -/
def wDl : DataLoader :=
  ⟨[⟨⟨2020, 1, 1⟩, 100, some 1, some 1, some 1⟩], 1, fun _ => 1⟩

/-- A placeholder `Math.pow` for runs whose annualized return is not under
scrutiny. -/
def wPow : ℚ → ℚ → JsNum := fun _ _ => .nan

open BacktestEngine in
theorem C2_witness :
    (run wPow wDl (ahr999PercentileStrategy wDl 1000 ⟨0, 0, 0, 0, 0, 0, false⟩)
      ⟨2020, 1, 1⟩ ⟨2020, 1, 3⟩ 1000).finalPortfolioValue = 0 ∧
    (run wPow wDl (ahr999PercentileStrategy wDl 1000 ⟨0, 0, 0, 0, 0, 0, false⟩)
      ⟨2020, 1, 1⟩ ⟨2020, 1, 3⟩ 1000).transactions = [] := by
  have h := C2_zero_invested_means_zero_portfolio wPow wDl
  have h2 := h.2 ⟨2020, 1, 1⟩ ⟨2020, 1, 3⟩ 1000 false
  exact ⟨(h.1 (ahr999PercentileStrategy wDl 1000 ⟨0, 0, 0, 0, 0, 0, false⟩)
    ⟨2020, 1, 1⟩ ⟨2020, 1, 3⟩ 1000 h2.1).1, h2.2.2.2⟩

/-- `percShouldInvest` never mutates the strategy state. -/
lemma percShouldInvest_snd (dl : DataLoader) (cfg : PercConfig) (mb : ℚ)
    (x : Ymd) (dd : DayData) (sp : PercState) :
    (percShouldInvest dl cfg mb x dd sp).2 = sp := by
  unfold percShouldInvest
  cases hq : dd.ahr999 with
  | some v => simp only [hq]; split_ifs <;> rfl
  | none =>
      simp only [hq]
      cases hc : dl.calculateAHR999 x sp.priceHistory with
      | none => simp [hc]
      | some v => simp only [hc]; split_ifs <;> rfl

namespace BacktestEngine

section WindowBound

variable (dl : DataLoader) {σ : Type} (strat : Strat σ) (s e : Ymd) (mb tb : ℚ)

/-- Generic bounded-window invariant for the run loop: if every strategy
method other than `updatePriceHistory` leaves the rolling window alone and
`updatePriceHistory` is the base push-and-evict, the window length stays
at most 300 across every day-step. -/
lemma stateAt_window_bound (f : σ → List ℚ)
    (h_init : f strat.init = [])
    (h_month : ∀ (x : Ymd) (sp : σ), f (strat.onMonthStart x sp) = f sp)
    (h_upd : ∀ (p : ℚ) (sp : σ),
      f (strat.updatePriceHistory p sp) = baseUpdatePriceHistory p (f sp))
    (h_should : ∀ (x : Ymd) (pr : ℚ) (dd : DayData) (sp : σ),
      f ((strat.shouldInvest x pr dd sp).2) = f sp) :
    ∀ k, k ≤ numDays s e →
      (f (stateAt dl strat s e mb tb k).stratState).length ≤ 300 := by
  have hb : ∀ (p : ℚ) (h : List ℚ), h.length ≤ 300 →
      (baseUpdatePriceHistory p h).length ≤ 300 := by
    intro p h hl
    unfold baseUpdatePriceHistory DataLoader.dcaWindow
    dsimp only
    split_ifs with hc <;> simp at hc ⊢ <;> omega
  refine @stateAt_ind dl σ strat s e mb tb
    (fun _ st => (f st.stratState).length ≤ 300) (by simp [initState, h_init]) ?_
  intro k hk ih
  rw [stateAt_succ dl strat s e mb tb hk]
  set st := stateAt dl strat s e mb tb k
  set cur := shiftDays s k
  have hbd : f (boundaryPhase strat s e mb st cur).stratState = f st.stratState := by
    unfold boundaryPhase
    split_ifs <;> simp [h_month]
  rcases hgp : dl.getPriceData cur with _ | dd
  · rw [stepDay_of_skip dl strat s e mb tb st cur (Or.inl hgp)]
    simpa [hbd] using ih
  · by_cases hp : dd.price > 0
    · rw [stepDay_of_priced dl strat s e mb tb st cur dd hgp hp]
      have hs := tradeAndRecord_spec strat s e tb
        (boundaryPhase strat s e mb st cur) cur dd
      dsimp only at hs
      obtain ⟨t1, -, -, -, -, -, -, -⟩ := hs
      show (f (tradeAndRecord strat s e tb _ cur dd).stratState).length ≤ 300
      rw [t1, h_should, h_upd, hbd]
      exact hb dd.price (f st.stratState) ih
    · rw [stepDay_of_skip dl strat s e mb tb st cur (Or.inr ⟨dd, hgp, hp⟩)]
      simpa [hbd] using ih

end WindowBound

end BacktestEngine

open BacktestEngine in
/-- **C10** (invariants): the base strategy's rolling price window never
exceeds 300 elements (the 200-day DCA window plus 100): each push beyond
the bound evicts the oldest price, and every day-step of a simulation with
the Daily-DCA, Monthly-DCA or percentile strategy preserves the bound. -/
theorem C10_price_window_bounded :
    (∀ (p : ℚ) (h : List ℚ), h.length ≤ 300 →
      (baseUpdatePriceHistory p h).length ≤ 300) ∧
    (∀ (p : ℚ) (h : List ℚ), h.length = 300 →
      baseUpdatePriceHistory p h = h.tail ++ [p]) ∧
    (∀ (dl : DataLoader) (s e : Ymd) (mb tb : ℚ) (k : Nat), k ≤ numDays s e →
      (stateAt dl (dailyDCAStrategy mb) s e mb tb k).stratState.priceHistory.length ≤ 300) ∧
    (∀ (dl : DataLoader) (s e : Ymd) (mb tb : ℚ) (dom : Int) (k : Nat), k ≤ numDays s e →
      (stateAt dl (monthlyDCAStrategy mb dom) s e mb tb k).stratState.priceHistory.length ≤ 300) ∧
    (∀ (dl : DataLoader) (s e : Ymd) (mb tb : ℚ) (cfg : PercConfig) (k : Nat), k ≤ numDays s e →
      (stateAt dl (ahr999PercentileStrategy dl mb cfg) s e mb tb k).stratState.priceHistory.length ≤ 300) := by
  refine ⟨?_, ?_, ?_, ?_, ?_⟩
  · intro p h hl
    unfold baseUpdatePriceHistory DataLoader.dcaWindow
    dsimp only
    split_ifs with hc <;> simp at hc ⊢ <;> omega
  · intro p h hl
    unfold baseUpdatePriceHistory DataLoader.dcaWindow
    dsimp only
    rw [if_pos (by simp [hl]), List.drop_append_of_le_length (by omega),
      List.drop_one]
  · intro dl s e mb tb k hk
    exact stateAt_window_bound dl (dailyDCAStrategy mb) s e mb tb
      BaseState.priceHistory rfl (fun _ _ => rfl) (fun _ _ => rfl)
      (fun _ _ _ _ => rfl) k hk
  · intro dl s e mb tb dom k hk
    exact stateAt_window_bound dl (monthlyDCAStrategy mb dom) s e mb tb
      BaseState.priceHistory rfl (fun _ _ => rfl) (fun _ _ => rfl)
      (fun _ _ _ _ => rfl) k hk
  · intro dl s e mb tb cfg k hk
    exact stateAt_window_bound dl (ahr999PercentileStrategy dl mb cfg) s e mb tb
      PercState.priceHistory rfl (fun _ _ => rfl) (fun _ _ => rfl)
      (fun x pr dd sp => by
        show PercState.priceHistory ((percShouldInvest dl cfg mb x dd sp).2) = _
        rw [percShouldInvest_snd]) k hk

theorem C10_witness :
    (baseUpdatePriceHistory 5 (List.replicate 300 (1 : ℚ))).length ≤ 300 ∧
    baseUpdatePriceHistory 5 (List.replicate 300 (1 : ℚ)) =
      (List.replicate 300 (1 : ℚ)).tail ++ [5] := by
  exact ⟨C10_price_window_bounded.1 5 (List.replicate 300 1)
      (le_of_eq (List.length_replicate 300 1)),
    C10_price_window_bounded.2.1 5 (List.replicate 300 1)
      (List.length_replicate 300 1)⟩

open BacktestEngine in
/-- **C8** (error handling): a malformed date range (start on or after
end) or a non-positive monthly budget is rejected synchronously by the
backtest invocation: no engine is created, no day is simulated, and no
result is constructed (the invocation yields nothing). -/
theorem C8_invalid_inputs_rejected (jsPow : ℚ → ℚ → JsNum) (dl : DataLoader)
    {σ : Type} (strat : Strat σ) (s e : Ymd) (mb : ℚ)
    (h : dayNumber s ≥ dayNumber e ∨ mb ≤ 0) :
    runBacktest jsPow dl strat s e mb = none := by
  unfold runBacktest
  rcases h with h | h <;>
    split_ifs with h1 h2 h3 <;>
    first | rfl | omega | exact absurd h h3

open BacktestEngine in
/-- **C5** (functional correctness): the period total budget is
`durationInDays × (monthlyBudget / 30.44)` for Fixed-Daily and
non-unlimited percentile strategies and
`completeMonthsSpanned × monthlyBudget` for Fixed-Monthly and
unlimited-mode percentile strategies, where `durationInDays` counts both
endpoints and a "complete month" is exactly a calendar month with at
least one day inside `[startDate, endDate]` (including a month whose last
day is the run's start). -/
theorem C5_total_budget_by_class (s e : Ymd) (mb : ℚ)
    (hs : Valid s) (he : Valid e) (hle : dayNumber s ≤ dayNumber e) :
    computeTotalBudget .dailyDCA s e mb =
      (durationDays s e : ℚ) * (mb / (761 / 25)) ∧
    computeTotalBudget (.ahr999Percentile false) s e mb =
      (durationDays s e : ℚ) * (mb / (761 / 25)) ∧
    computeTotalBudget .monthlyDCA s e mb =
      (getCompleteMonthsCount s e : ℚ) * mb ∧
    computeTotalBudget (.ahr999Percentile true) s e mb =
      (getCompleteMonthsCount s e : ℚ) * mb ∧
    durationDays s e = dayNumber e - dayNumber s + 1 ∧
    (∀ M : Int, (monthIdx s ≤ M ∧ M ≤ monthIdx e) ↔
      ∃ d : Ymd, Valid d ∧ dayNumber s ≤ dayNumber d ∧
        dayNumber d ≤ dayNumber e ∧ monthIdx d = M) ∧
    getCompleteMonthsCount s e = monthIdx e - monthIdx s + 1 := by
  have hmi : monthIdx s ≤ monthIdx e := monthIdx_le_of_dayNumber_le hs he hle
  refine ⟨rfl, rfl, rfl, rfl, rfl, ?_, ?_⟩
  · intro M
    constructor
    · rintro ⟨hMs, hMe⟩
      by_cases hM : M = monthIdx s
      · exact ⟨s, hs, le_refl _, hle, hM.symm⟩
      · have hgt : monthIdx s < M := lt_of_le_of_ne hMs (fun hc => hM hc.symm)
        have hs12 : 12 ≤ monthIdx s := by
          obtain ⟨a1, a2, a3, -, -⟩ := hs
          unfold monthIdx; omega
        have hvd : Valid (⟨M / 12, M % 12 + 1, 1⟩ : Ymd) := by
          refine ⟨?_, ?_, ?_, ?_, ?_⟩ <;> dsimp only
          · omega
          · omega
          · omega
          · omega
          · exact monthLength_pos _ _
        have hmid : monthIdx (⟨M / 12, M % 12 + 1, 1⟩ : Ymd) = M := by
          unfold monthIdx; dsimp only; omega
        refine ⟨⟨M / 12, M % 12 + 1, 1⟩, hvd, ?_, ?_, hmid⟩
        · have hlex : LexLt s ⟨M / 12, M % 12 + 1, 1⟩ := Or.inl (by omega)
          exact (dayNumber_lt_of_lexLt hs hvd hlex).le
        · rcases lt_or_eq_of_le hMe with hlt | heq
          · have hlex : LexLt ⟨M / 12, M % 12 + 1, 1⟩ e := Or.inl (by omega)
            exact (dayNumber_lt_of_lexLt hvd he hlex).le
          · have he4 : 1 ≤ e.d := he.2.2.2.1
            rcases lt_or_eq_of_le he4 with hd | hd
            · have hlex : LexLt ⟨M / 12, M % 12 + 1, 1⟩ e :=
                Or.inr ⟨by omega, by simpa using hd⟩
              exact (dayNumber_lt_of_lexLt hvd he hlex).le
            · have hde : (⟨M / 12, M % 12 + 1, 1⟩ : Ymd) = e :=
                eq_of_monthIdx_day_eq hvd he (by omega) (by simpa using hd)
              rw [hde]
    · rintro ⟨d, hd, hsd, hde, rfl⟩
      exact ⟨monthIdx_le_of_dayNumber_le hs hd hsd,
        monthIdx_le_of_dayNumber_le hd he hde⟩
  · unfold getCompleteMonthsCount
    rw [if_pos hmi]

/-- Folding JS additions of `1/p` over a list of nonzero rationals stays
finite and computes the rational sum of reciprocals. -/
lemma harmonic_fold (l : List ℚ) (hl : ∀ p ∈ l, p ≠ 0) (acc : ℚ) :
    l.foldl (fun sAcc p => sAcc.add ((JsNum.fin 1).div (JsNum.fin p))) (JsNum.fin acc)
      = JsNum.fin (acc + (l.map (fun p => 1 / p)).sum) := by
  induction l generalizing acc with
  | nil => simp
  | cons a t ih =>
      have ha : a ≠ 0 := hl a (by simp)
      simp only [List.foldl_cons]
      have hdiv : (JsNum.fin 1).div (JsNum.fin a) = JsNum.fin (1 / a) := by
        simp only [JsNum.div]
        rw [if_neg ha]
      rw [hdiv]
      show List.foldl _ (JsNum.fin (acc + 1 / a)) t = _
      rw [ih (fun p hp => hl p (by simp [hp]))]
      congr 1
      simp only [List.map_cons, List.sum_cons]
      ring

lemma getLastD_replicate (n : Nat) (x : ℚ) :
    ∀ d : ℚ, (List.replicate (n + 1) x).getLastD d = x := by
  induction n with
  | zero => intro d; rfl
  | succ m ih =>
      intro d
      rw [List.replicate_succ, List.getLastD_cons]
      exact ih x

/-- Folding JS additions of `1/0` (`Infinity`) stays at `Infinity`. -/
lemma inf_fold_zero (n : Nat) :
    (List.replicate n (0 : ℚ)).foldl
      (fun sAcc p => sAcc.add ((JsNum.fin 1).div (JsNum.fin p))) (JsNum.inf true) =
      JsNum.inf true := by
  induction n with
  | zero => rfl
  | succ m ih =>
      rw [List.replicate_succ, List.foldl_cons]
      exact ih

/-- **C7 counterexample**: the on-the-fly valuation-index computation has
no guard for zero or negative prices: a window of 200 negative prices
yields a number (not `None`), and a window of 200 zero prices yields NaN
(the JS divisions produce `Infinity`/`NaN` unchecked). -/
theorem C7_counterexample :
    (-1 : ℚ) ∈ List.replicate 200 (-1 : ℚ) ∧ (-1 : ℚ) < 0 ∧
    wDl.calculateAHR999 ⟨2020, 1, 1⟩ (List.replicate 200 (-1 : ℚ)) =
      some (JsNum.fin (-1)) ∧
    wDl.calculateAHR999 ⟨2020, 1, 1⟩ (List.replicate 200 (0 : ℚ)) =
      some JsNum.nan := by
  have htrend : wDl.calculatePowerLawPrice ⟨2020, 1, 1⟩ = 1 := by
    unfold wDl DataLoader.calculatePowerLawPrice
    norm_num
  refine ⟨List.mem_replicate.mpr ⟨by norm_num, rfl⟩, by norm_num, ?_, ?_⟩
  · unfold DataLoader.calculateAHR999 DataLoader.dcaWindow
    rw [if_neg (by simp)]
    have hlen : (List.replicate 200 (-1 : ℚ)).length - 200 = 0 := by simp
    dsimp only
    rw [hlen, List.drop_zero]
    rw [harmonic_fold (List.replicate 200 (-1 : ℚ))
      (fun p hp => by rw [List.eq_of_mem_replicate hp]; norm_num) 0]
    have hsum : (0 : ℚ) + ((List.replicate 200 (-1 : ℚ)).map (fun p => 1 / p)).sum = -200 := by
      rw [List.map_replicate, List.sum_replicate]
      norm_num
    rw [hsum]
    have h1 : (JsNum.fin ((200 : Nat) : ℚ)).div (JsNum.fin (-200)) = JsNum.fin (-1) := by
      simp only [JsNum.div]
      rw [if_neg (by norm_num)]
      norm_num
    rw [h1]
    rw [getLastD_replicate 199 (-1 : ℚ) 0]
    have h2 : (JsNum.fin (-1 : ℚ)).div (JsNum.fin (-1)) = JsNum.fin 1 := by
      simp only [JsNum.div]
      rw [if_neg (by norm_num)]
      norm_num
    rw [h2, htrend]
    have h3 : (JsNum.fin (-1 : ℚ)).div (JsNum.fin 1) = JsNum.fin (-1) := by
      simp only [JsNum.div]
      rw [if_neg (by norm_num)]
      norm_num
    rw [h3]
    have h4 : (JsNum.fin (1 : ℚ)).mul (JsNum.fin (-1)) = JsNum.fin (-1) := by
      simp only [JsNum.mul]
      norm_num
    rw [h4]
  · unfold DataLoader.calculateAHR999 DataLoader.dcaWindow
    rw [if_neg (by simp)]
    have hlen : (List.replicate 200 (0 : ℚ)).length - 200 = 0 := by simp
    dsimp only
    rw [hlen, List.drop_zero]
    have hstep : ∀ sAcc : JsNum,
        sAcc.add ((JsNum.fin 1).div (JsNum.fin (0 : ℚ))) = sAcc.add (JsNum.inf true) := by
      intro sAcc
      congr 1
    have hfold : (List.replicate 200 (0 : ℚ)).foldl
        (fun sAcc p => sAcc.add ((JsNum.fin 1).div (JsNum.fin p))) (JsNum.fin 0) =
        JsNum.inf true := by
      have h200 : List.replicate 200 (0 : ℚ) = (0 : ℚ) :: List.replicate 199 0 :=
        List.replicate_succ 0 199
      rw [h200, List.foldl_cons, hstep]
      show (List.replicate 199 (0 : ℚ)).foldl _ (JsNum.inf true) = _
      exact inf_fold_zero 199
    rw [hfold]
    rw [getLastD_replicate 199 (0 : ℚ) 0]
    have h1 : (JsNum.fin ((200 : Nat) : ℚ)).div (JsNum.inf true) = JsNum.fin 0 := rfl
    rw [h1]
    have h2 : (JsNum.fin (0 : ℚ)).div (JsNum.fin 0) = JsNum.nan := by
      simp [JsNum.div]
    rw [h2, htrend]
    have h3 : (JsNum.fin (0 : ℚ)).div (JsNum.fin 1) = JsNum.fin 0 := by
      simp only [JsNum.div]
      rw [if_neg (by norm_num)]
      norm_num
    rw [h3]
    simp [JsNum.mul]

open DataLoader in
/-- **C7 amended** (safety): `calculateAHR999` returns `None` exactly when
the window has fewer than 200 elements; for a window of at least 200
strictly positive prices (and a nonzero trend price) it returns
`(currentPrice / harmonicMean(last 200 prices)) ×
(currentPrice / trendPrice(date))` where `currentPrice` is the last
window element.  Zero or negative prices in the window are NOT guarded:
the function still returns a value, which can be `Infinity` or NaN. -/
theorem C7_amended_index_computation :
    (∀ (dl : DataLoader) (x : Ymd) (w : List ℚ),
      dl.calculateAHR999 x w = none ↔ w.length < 200) ∧
    (∀ (dl : DataLoader) (x : Ymd) (w : List ℚ), 200 ≤ w.length →
      (∀ p ∈ w, 0 < p) → dl.calculatePowerLawPrice x ≠ 0 →
      dl.calculateAHR999 x w = some (JsNum.fin
        ((w.getLastD 0 /
            (200 / ((w.drop (w.length - 200)).map (fun p => 1 / p)).sum)) *
         (w.getLastD 0 / dl.calculatePowerLawPrice x)))) := by
  constructor
  · intro dl x w
    unfold DataLoader.calculateAHR999 DataLoader.dcaWindow
    split_ifs with h
    · simpa using h
    · simpa using h
  · intro dl x w hw hpos htr
    unfold DataLoader.calculateAHR999 DataLoader.dcaWindow
    rw [if_neg (by omega)]
    dsimp only
    have hsub : ∀ p ∈ w.drop (w.length - 200), p ≠ 0 := by
      intro p hp
      exact (hpos p (List.mem_of_mem_drop hp)).ne.symm
    have hfold := harmonic_fold (w.drop (w.length - 200)) hsub 0
    rw [zero_add] at hfold
    rw [hfold]
    have hlen : (w.drop (w.length - 200)).length = 200 := by
      rw [List.length_drop]; omega
    have hSpos : 0 < ((w.drop (w.length - 200)).map (fun p => 1 / p)).sum := by
      apply List.sum_pos
      · intro q hq
        simp only [List.mem_map] at hq
        obtain ⟨p, hp, rfl⟩ := hq
        have := hpos p (List.mem_of_mem_drop hp)
        positivity
      · intro hc
        have hlc := congrArg List.length hc
        simp only [List.length_map, hlen] at hlc
        simp at hlc
    have hS : ((w.drop (w.length - 200)).map (fun p => 1 / p)).sum ≠ 0 := hSpos.ne.symm
    have hd1 : (JsNum.fin ((200 : Nat) : ℚ)).div
        (JsNum.fin ((w.drop (w.length - 200)).map (fun p => 1 / p)).sum) =
        JsNum.fin (200 / ((w.drop (w.length - 200)).map (fun p => 1 / p)).sum) := by
      simp only [JsNum.div]
      rw [if_neg hS]
      norm_num
    have hq2 : (200 : ℚ) / ((w.drop (w.length - 200)).map (fun p => 1 / p)).sum ≠ 0 := by
      positivity
    have hd2 : (JsNum.fin (w.getLastD 0)).div
        (JsNum.fin (200 / ((w.drop (w.length - 200)).map (fun p => 1 / p)).sum)) =
        JsNum.fin (w.getLastD 0 /
          (200 / ((w.drop (w.length - 200)).map (fun p => 1 / p)).sum)) := by
      simp only [JsNum.div]
      rw [if_neg hq2]
    have hd3 : (JsNum.fin (w.getLastD 0)).div (JsNum.fin (dl.calculatePowerLawPrice x)) =
        JsNum.fin (w.getLastD 0 / dl.calculatePowerLawPrice x) := by
      simp only [JsNum.div]
      rw [if_neg htr]
    rw [hd1, hd2, hd3]
    rfl

theorem C7_witness :
    wDl.calculateAHR999 ⟨2020, 1, 1⟩ (List.replicate 199 (2 : ℚ)) = none ∧
    wDl.calculateAHR999 ⟨2020, 1, 1⟩ (List.replicate 200 (2 : ℚ)) =
      some (JsNum.fin 2) := by
  have htrend : wDl.calculatePowerLawPrice ⟨2020, 1, 1⟩ = 1 := by
    unfold wDl DataLoader.calculatePowerLawPrice
    norm_num
  constructor
  · exact (C7_amended_index_computation.1 wDl ⟨2020, 1, 1⟩
      (List.replicate 199 2)).mpr (by simp)
  · have h := C7_amended_index_computation.2 wDl ⟨2020, 1, 1⟩
      (List.replicate 200 2) (by simp)
      (fun p hp => by rw [List.eq_of_mem_replicate hp]; norm_num)
      (by rw [htrend]; norm_num)
    rw [h, htrend]
    simp only [Option.some.injEq, JsNum.fin.injEq]
    rw [getLastD_replicate 199 (2 : ℚ) 0]
    have hlen : (List.replicate 200 (2 : ℚ)).length - 200 = 0 := by simp
    rw [hlen, List.drop_zero, List.map_replicate, List.sum_replicate]
    norm_num

theorem C5_witness :
    getCompleteMonthsCount ⟨2020, 1, 31⟩ ⟨2020, 3, 1⟩ =
      monthIdx ⟨2020, 3, 1⟩ - monthIdx ⟨2020, 1, 31⟩ + 1 ∧
    (∃ d : Ymd, Valid d ∧ dayNumber ⟨2020, 1, 31⟩ ≤ dayNumber d ∧
      dayNumber d ≤ dayNumber ⟨2020, 3, 1⟩ ∧ monthIdx d = monthIdx ⟨2020, 1, 31⟩) := by
  have h := C5_total_budget_by_class ⟨2020, 1, 31⟩ ⟨2020, 3, 1⟩ 1000
    (by decide) (by decide) (by decide)
  exact ⟨h.2.2.2.2.2.2,
    (h.2.2.2.2.2.1 (monthIdx ⟨2020, 1, 31⟩)).mp ⟨le_refl _, by decide⟩⟩

theorem C8_witness :
    runBacktest wPow wDl (dailyDCAStrategy 1000) ⟨2020, 1, 3⟩ ⟨2020, 1, 1⟩ 1000 = none ∧
    runBacktest wPow wDl (dailyDCAStrategy 1000) ⟨2020, 1, 1⟩ ⟨2020, 1, 3⟩ (-5) = none := by
  constructor
  · exact C8_invalid_inputs_rejected wPow wDl (dailyDCAStrategy 1000)
      ⟨2020, 1, 3⟩ ⟨2020, 1, 1⟩ 1000 (Or.inl (by decide))
  · exact C8_invalid_inputs_rejected wPow wDl (dailyDCAStrategy 1000)
      ⟨2020, 1, 1⟩ ⟨2020, 1, 3⟩ (-5) (Or.inr (by norm_num))


/-! ## Snapshot invariant (claim C4) -/

namespace BacktestEngine

section SnapLemmas

variable (dl : DataLoader) {σ : Type} (strat : Strat σ) (s e : Ymd) (mb tb : ℚ)

/-- Every recorded portfolio snapshot was taken on a day with a valid
price and carries the class-appropriate portfolio value. -/
def SnapInv (st : RunState σ) : Prop :=
  ∀ ps ∈ st.portfolioHistory, ∃ dd : DayData,
    dl.getPriceData ps.date = some dd ∧ 0 < dd.price ∧
    ps.portfolioValue = (if isAHR999FamilyTag strat.tag then
      ps.btcBalance * dd.price else ps.cashBalance + ps.btcBalance * dd.price)

lemma stepDay_snapInv (st : RunState σ) (cur : Ymd)
    (h : SnapInv dl strat st) :
    SnapInv dl strat (stepDay dl strat s e mb tb st cur) := by
  obtain ⟨-, -, -, b4, -⟩ := boundaryPhase_fields strat s e mb st cur
  rcases hgp : dl.getPriceData cur with _ | dd
  · rw [stepDay_of_skip dl strat s e mb tb st cur (Or.inl hgp)]
    intro ps hps
    exact h ps (by simpa [b4] using hps)
  · by_cases hp : dd.price > 0
    · rw [stepDay_of_priced dl strat s e mb tb st cur dd hgp hp]
      have hs := tradeAndRecord_spec strat s e tb
        (boundaryPhase strat s e mb st cur) cur dd
      dsimp only at hs
      obtain ⟨-, -, -, -, -, -, -, t8⟩ := hs
      intro ps hps
      rcases t8 with t8 | t8
      · refine h ps ?_
        simp only at hps
        rw [t8, b4] at hps
        exact hps
      · simp only at hps
        rw [t8, b4, List.mem_append] at hps
        rcases hps with hps | hps
        · exact h ps hps
        · simp only [List.mem_singleton] at hps
          subst hps
          exact ⟨dd, hgp, hp, by split_ifs <;> rfl⟩
    · rw [stepDay_of_skip dl strat s e mb tb st cur (Or.inr ⟨dd, hgp, hp⟩)]
      intro ps hps
      exact h ps (by simpa [b4] using hps)

lemma runCore_snapInv : SnapInv dl strat (runCore dl strat s e mb tb) := by
  unfold runCore
  refine @foldl_preserve Ymd (RunState σ) (SnapInv dl strat)
    (stepDay dl strat s e mb tb) (dayList s (numDays s e)) (initState strat)
    ?_ ?_
  · intro ps hps
    simp [initState] at hps
  · intro x _ st hst
    exact stepDay_snapInv dl strat s e mb tb st x hst

end SnapLemmas

end BacktestEngine

open BacktestEngine in
/-- **C4** (functional correctness): every recorded PortfolioState values
the portfolio as `cashBalance + btcBalance × price` for cash-tracked
strategies but strictly `btcBalance × price` for the AHR999 family
(percentile-tiered and continuous power-curve), and the final portfolio
value (when `totalInvested > 0`) follows the same rule at the final
price. -/
theorem C4_portfolio_value_by_class (jsPow : ℚ → ℚ → JsNum) (dl : DataLoader)
    {σ : Type} (strat : Strat σ) (s e : Ymd) (mb : ℚ) :
    (∀ ps ∈ (run jsPow dl strat s e mb).portfolioHistory, ∃ dd : DayData,
      dl.getPriceData ps.date = some dd ∧ 0 < dd.price ∧
      ps.portfolioValue = (if isAHR999FamilyTag strat.tag then
        ps.btcBalance * dd.price else ps.cashBalance + ps.btcBalance * dd.price)) ∧
    (0 < (run jsPow dl strat s e mb).totalInvested →
      (run jsPow dl strat s e mb).finalPortfolioValue =
        (if isAHR999FamilyTag strat.tag then
          (run jsPow dl strat s e mb).finalBtcBalance * finalPrice dl e
         else (runCore dl strat s e mb (computeTotalBudget strat.tag s e mb)).cashBalance +
           (run jsPow dl strat s e mb).finalBtcBalance * finalPrice dl e)) := by
  obtain ⟨f1, f2, -, f4, -, f6⟩ := run_fields dl strat s e mb jsPow
  constructor
  · intro ps hps
    refine runCore_snapInv dl strat s e mb
      (computeTotalBudget strat.tag s e mb) ps ?_
    rw [← f4]
    exact hps
  · intro hti
    rw [f1] at hti
    rw [f6, if_neg (by exact hti.ne.symm), f2]

/-! ## A tiny fully-evaluated run (gap end date, one executed trade) -/

/-- Two historical rows (2020-01-01 and 2020-01-04) with a gap in
between; runs ending 2020-01-02/03 end on a day with no price record. -/
def vDl : DataLoader :=
  ⟨[⟨⟨2020, 1, 1⟩, 100, none, none, none⟩, ⟨⟨2020, 1, 4⟩, 100, none, none, none⟩],
    1, fun _ => 1⟩

set_option maxHeartbeats 2000000 in
open BacktestEngine in
/-- Evaluation of the 3-day Monthly-DCA run over `vDl`: one 1000-unit
purchase on day one, leaving zero cash. -/
lemma vRun_state :
    (runCore vDl (monthlyDCAStrategy 1000 1) ⟨2020, 1, 1⟩ ⟨2020, 1, 3⟩ 1000
      (computeTotalBudget StratTag.monthlyDCA ⟨2020, 1, 1⟩ ⟨2020, 1, 3⟩ 1000)).totalInvested = 1000 ∧
    (runCore vDl (monthlyDCAStrategy 1000 1) ⟨2020, 1, 1⟩ ⟨2020, 1, 3⟩ 1000
      (computeTotalBudget StratTag.monthlyDCA ⟨2020, 1, 1⟩ ⟨2020, 1, 3⟩ 1000)).cashBalance = 0 := by
  have hdl : dayList ⟨2020, 1, 1⟩ (numDays ⟨2020, 1, 1⟩ ⟨2020, 1, 3⟩) =
      [⟨2020, 1, 1⟩, ⟨2020, 1, 2⟩, ⟨2020, 1, 3⟩] := by decide
  unfold runCore
  rw [hdl]
  norm_num [stepDay, boundaryPhase, tradeAndRecord, creditCash, executedAmount,
    isFirstDayOfMonth, monthlyDCAStrategy, initState, isUnlimitedBudgetTag,
    isAHR999FamilyTag, jsOrNull, baseUpdatePriceHistory, computeTotalBudget,
    getCompleteMonthsCount, monthIdx, DataLoader.getPriceData, DataLoader.lookupRow,
    DataLoader.getLastHistoricalDate, DataLoader.cacheVal, dayNumber, daysBeforeMonth,
    isLeap, vDl, List.find?, List.foldl, DataLoader.daysPerMonth]

open BacktestEngine in
theorem C4_witness :
    (run wPow vDl (monthlyDCAStrategy 1000 1) ⟨2020, 1, 1⟩ ⟨2020, 1, 3⟩ 1000).finalPortfolioValue =
      (if isAHR999FamilyTag (monthlyDCAStrategy 1000 1).tag then
        (run wPow vDl (monthlyDCAStrategy 1000 1) ⟨2020, 1, 1⟩ ⟨2020, 1, 3⟩ 1000).finalBtcBalance *
          finalPrice vDl ⟨2020, 1, 3⟩
       else (runCore vDl (monthlyDCAStrategy 1000 1) ⟨2020, 1, 1⟩ ⟨2020, 1, 3⟩ 1000
          (computeTotalBudget (monthlyDCAStrategy 1000 1).tag ⟨2020, 1, 1⟩ ⟨2020, 1, 3⟩ 1000)).cashBalance +
        (run wPow vDl (monthlyDCAStrategy 1000 1) ⟨2020, 1, 1⟩ ⟨2020, 1, 3⟩ 1000).finalBtcBalance *
          finalPrice vDl ⟨2020, 1, 3⟩) := by
  refine (C4_portfolio_value_by_class wPow vDl (monthlyDCAStrategy 1000 1)
    ⟨2020, 1, 1⟩ ⟨2020, 1, 3⟩ 1000).2 ?_
  have hf := (run_fields vDl (monthlyDCAStrategy 1000 1) ⟨2020, 1, 1⟩ ⟨2020, 1, 3⟩ 1000 wPow).1
  rw [hf]
  rw [show (monthlyDCAStrategy 1000 1).tag = StratTag.monthlyDCA from rfl]
  rw [vRun_state.1]
  norm_num

open BacktestEngine in
/-- **C9** (functional correctness): when the end date has no price
record, the final valuation price is 0, so an AHR999-family run is valued
at 0 and a cash-tracked run at exactly its remaining cash balance. -/
theorem C9_gap_end_date_valuation (jsPow : ℚ → ℚ → JsNum) (dl : DataLoader)
    {σ : Type} (strat : Strat σ) (s e : Ymd) (mb : ℚ)
    (h : dl.getPriceData e = none) :
    finalPrice dl e = 0 ∧
    (isAHR999FamilyTag strat.tag = true →
      (run jsPow dl strat s e mb).finalPortfolioValue = 0) ∧
    (isAHR999FamilyTag strat.tag = false →
      (run jsPow dl strat s e mb).totalInvested ≠ 0 →
      (run jsPow dl strat s e mb).finalPortfolioValue =
        (runCore dl strat s e mb (computeTotalBudget strat.tag s e mb)).cashBalance) := by
  obtain ⟨f1, -, -, -, -, f6⟩ := run_fields dl strat s e mb jsPow
  have hfp : finalPrice dl e = 0 := by
    unfold finalPrice
    rw [h]
  refine ⟨hfp, ?_, ?_⟩
  · intro hfam
    rw [f6, hfp]
    split_ifs <;> simp
  · intro hfam hti
    rw [f1] at hti
    rw [f6, if_neg hti, if_neg (by simp [hfam]), hfp]
    ring

open BacktestEngine in
theorem C9_witness :
    (run wPow vDl (ahr999PercentileStrategy vDl 1000 ⟨0, 0, 0, 0, 0, 0, false⟩)
      ⟨2020, 1, 1⟩ ⟨2020, 1, 3⟩ 1000).finalPortfolioValue = 0 ∧
    (run wPow vDl (monthlyDCAStrategy 1000 1) ⟨2020, 1, 1⟩ ⟨2020, 1, 3⟩ 1000).finalPortfolioValue =
      (runCore vDl (monthlyDCAStrategy 1000 1) ⟨2020, 1, 1⟩ ⟨2020, 1, 3⟩ 1000
        (computeTotalBudget (monthlyDCAStrategy 1000 1).tag ⟨2020, 1, 1⟩ ⟨2020, 1, 3⟩ 1000)).cashBalance := by
  constructor
  · exact (C9_gap_end_date_valuation wPow vDl
      (ahr999PercentileStrategy vDl 1000 ⟨0, 0, 0, 0, 0, 0, false⟩)
      ⟨2020, 1, 1⟩ ⟨2020, 1, 3⟩ 1000 (by decide)).2.1 rfl
  · refine (C9_gap_end_date_valuation wPow vDl (monthlyDCAStrategy 1000 1)
      ⟨2020, 1, 1⟩ ⟨2020, 1, 3⟩ 1000 (by decide)).2.2 rfl ?_
    have hf := (run_fields vDl (monthlyDCAStrategy 1000 1) ⟨2020, 1, 1⟩ ⟨2020, 1, 3⟩ 1000 wPow).1
    rw [hf]
    rw [show (monthlyDCAStrategy 1000 1).tag = StratTag.monthlyDCA from rfl]
    rw [vRun_state.1]
    norm_num

/-! ## Annualized-return branch structure and a gap-year run (claim C6) -/

/-- One priced row (2020-01-01, index columns present) and a later row
(2021-06-01) so that the whole of 2020 after Jan 1 is a data gap inside
the historical span. -/
def c6Dl : DataLoader :=
  ⟨[⟨⟨2020, 1, 1⟩, 100, some 1, some 1, some 1⟩,
    ⟨⟨2021, 6, 1⟩, 100, none, none, none⟩], 1, fun _ => 1⟩

/-- `Math.pow` on the inputs this run exercises: `pow(0, e) = 0` for
positive `e`, as in JS. -/
def c6Pow : ℚ → ℚ → JsNum := fun a e => if a = 0 ∧ 0 < e then .fin 0 else .nan

/-- All six tier multipliers 1, unlimited budget. -/
def c6Cfg : PercConfig := ⟨1, 1, 1, 1, 1, 1, true⟩

namespace BacktestEngine

lemma foldl_skip_totalInvested {σ : Type} (dl : DataLoader) (strat : Strat σ)
    (s e : Ymd) (mb tb : ℚ) (l : List Ymd)
    (hskip : ∀ x ∈ l, dl.getPriceData x = none) (st : RunState σ) :
    (l.foldl (stepDay dl strat s e mb tb) st).totalInvested = st.totalInvested := by
  induction l generalizing st with
  | nil => rfl
  | cons x xs ih =>
    obtain ⟨b1, -, -, -, -⟩ := boundaryPhase_fields strat s e mb st x
    have hstep := stepDay_of_skip dl strat s e mb tb st x (Or.inl (hskip x (by simp)))
    rw [List.foldl_cons, ih (fun y hy => hskip y (by simp [hy])), hstep]
    simpa using b1

end BacktestEngine

lemma shiftDays_succ_left (s : Ymd) (k : Nat) :
    shiftDays s (k + 1) = shiftDays (nextDay s) k := by
  induction k with
  | zero => rfl
  | succ n ih =>
    show nextDay (shiftDays s (n + 1)) = nextDay (shiftDays (nextDay s) n)
    rw [ih]

namespace BacktestEngine

lemma dayList_cons (s : Ymd) (n : Nat) :
    dayList s (n + 1) = s :: dayList (nextDay s) n := by
  unfold dayList
  rw [List.range_succ_eq_map]
  simp only [List.map_cons, List.map_map]
  refine congrArg₂ _ rfl ?_
  refine List.map_congr_left ?_
  intro a _
  exact shiftDays_succ_left s a

end BacktestEngine

open BacktestEngine in
lemma c6_skip : ∀ x ∈ dayList ⟨2020, 1, 2⟩ 365, c6Dl.getPriceData x = none := by decide

lemma c6_fp : BacktestEngine.finalPrice c6Dl ⟨2020, 12, 31⟩ = 0 := by decide

open BacktestEngine in
set_option maxHeartbeats 2000000 in
lemma c6_day1 :
    (stepDay c6Dl (ahr999PercentileStrategy c6Dl 1000 c6Cfg) ⟨2020, 1, 1⟩ ⟨2020, 12, 31⟩ 1000
      (computeTotalBudget (ahr999PercentileStrategy c6Dl 1000 c6Cfg).tag ⟨2020, 1, 1⟩ ⟨2020, 12, 31⟩ 1000)
      (initState (ahr999PercentileStrategy c6Dl 1000 c6Cfg)) ⟨2020, 1, 1⟩).totalInvested = 25000 / 761 := by
  norm_num [stepDay, boundaryPhase, tradeAndRecord, creditCash, executedAmount,
    isFirstDayOfMonth, ahr999PercentileStrategy, percShouldInvest, jsLtOpt,
    getPercentileValue, DataLoader.getHistoricalAHR999Values, List.mergeSort,
    JsNum.lt, JsNum.isNaN, initState, isUnlimitedBudgetTag,
    isAHR999FamilyTag, jsOrNull, baseUpdatePriceHistory, computeTotalBudget,
    getCompleteMonthsCount, monthIdx, DataLoader.getPriceData, DataLoader.lookupRow,
    DataLoader.getLastHistoricalDate, DataLoader.cacheVal, dayNumber, daysBeforeMonth,
    isLeap, c6Dl, c6Cfg, List.find?, List.foldl, DataLoader.daysPerMonth]

open BacktestEngine in
lemma c6_ti :
    (runCore c6Dl (ahr999PercentileStrategy c6Dl 1000 c6Cfg) ⟨2020, 1, 1⟩ ⟨2020, 12, 31⟩ 1000
      (computeTotalBudget (ahr999PercentileStrategy c6Dl 1000 c6Cfg).tag ⟨2020, 1, 1⟩ ⟨2020, 12, 31⟩ 1000)).totalInvested = 25000 / 761 := by
  have hnum : numDays ⟨2020, 1, 1⟩ ⟨2020, 12, 31⟩ = 365 + 1 := by decide
  have hnext : nextDay ⟨2020, 1, 1⟩ = (⟨2020, 1, 2⟩ : Ymd) := by decide
  unfold runCore
  rw [hnum, dayList_cons, hnext, List.foldl_cons,
    foldl_skip_totalInvested c6Dl (ahr999PercentileStrategy c6Dl 1000 c6Cfg)
      ⟨2020, 1, 1⟩ ⟨2020, 12, 31⟩ 1000 _ (dayList ⟨2020, 1, 2⟩ 365) c6_skip]
  exact c6_day1

namespace BacktestEngine

section C6Lemmas

variable (jsPow : ℚ → ℚ → JsNum) (dl : DataLoader) {σ : Type} (strat : Strat σ) (s e : Ymd) (mb : ℚ)

lemma run_annualized_cases
    (hti : 0 < (run jsPow dl strat s e mb).totalInvested) :
    (run jsPow dl strat s e mb).totalReturn =
      ((run jsPow dl strat s e mb).finalPortfolioValue - (run jsPow dl strat s e mb).totalInvested) /
        (run jsPow dl strat s e mb).totalInvested * 100 ∧
    (durationDays s e < 365 →
      (run jsPow dl strat s e mb).annualizedReturn = .inf true) ∧
    (365 ≤ durationDays s e →
      0 < (run jsPow dl strat s e mb).finalPortfolioValue / (run jsPow dl strat s e mb).totalInvested →
      ((((jsPow ((run jsPow dl strat s e mb).finalPortfolioValue / (run jsPow dl strat s e mb).totalInvested)
            (1 / ((durationDays s e : ℚ) / (1461 / 4)))).sub (.fin 1)).mul (.fin 100)).isFinite &&
       (((jsPow ((run jsPow dl strat s e mb).finalPortfolioValue / (run jsPow dl strat s e mb).totalInvested)
            (1 / ((durationDays s e : ℚ) / (1461 / 4)))).sub (.fin 1)).mul (.fin 100)).lt (.fin 1000000)) = true →
      (run jsPow dl strat s e mb).annualizedReturn =
        (((jsPow ((run jsPow dl strat s e mb).finalPortfolioValue / (run jsPow dl strat s e mb).totalInvested)
            (1 / ((durationDays s e : ℚ) / (1461 / 4)))).sub (.fin 1)).mul (.fin 100))) ∧
    (365 ≤ durationDays s e →
      ((run jsPow dl strat s e mb).finalPortfolioValue / (run jsPow dl strat s e mb).totalInvested ≤ 0 ∨
       ((((jsPow ((run jsPow dl strat s e mb).finalPortfolioValue / (run jsPow dl strat s e mb).totalInvested)
            (1 / ((durationDays s e : ℚ) / (1461 / 4)))).sub (.fin 1)).mul (.fin 100)).isFinite &&
        (((jsPow ((run jsPow dl strat s e mb).finalPortfolioValue / (run jsPow dl strat s e mb).totalInvested)
            (1 / ((durationDays s e : ℚ) / (1461 / 4)))).sub (.fin 1)).mul (.fin 100)).lt (.fin 1000000)) = false) →
      (run jsPow dl strat s e mb).annualizedReturn =
        .fin ((run jsPow dl strat s e mb).totalReturn / ((durationDays s e : ℚ) / (1461 / 4)))) := by
  have hti' : 0 < (runCore dl strat s e mb (computeTotalBudget strat.tag s e mb)).totalInvested := hti
  unfold run
  dsimp only
  rw [if_pos hti']
  refine ⟨?_, ?_, ?_, ?_⟩
  · split_ifs <;> rfl
  · intro hdur
    rw [if_neg (by omega)]
  · intro hdur hr0 hfin
    have hye : (0 : ℚ) < (durationDays s e : ℚ) / (1461 / 4) := by
      apply div_pos
      · exact_mod_cast lt_of_lt_of_le (by norm_num : (0 : Int) < 365) hdur
      · norm_num
    rw [if_pos hdur, if_pos ⟨hr0, hye⟩, if_pos hfin]
  · intro hdur hbad
    rw [if_pos hdur]
    rcases hbad with hr0 | hfin
    · rw [if_neg (fun hc => absurd hc.1 (not_lt.mpr hr0))]
    · by_cases hr0 : 0 < (if (runCore dl strat s e mb (computeTotalBudget strat.tag s e mb)).totalInvested = 0 then 0
        else if isAHR999FamilyTag strat.tag = true then
          (runCore dl strat s e mb (computeTotalBudget strat.tag s e mb)).btcBalance * finalPrice dl e
        else (runCore dl strat s e mb (computeTotalBudget strat.tag s e mb)).cashBalance +
          (runCore dl strat s e mb (computeTotalBudget strat.tag s e mb)).btcBalance * finalPrice dl e) /
        (runCore dl strat s e mb (computeTotalBudget strat.tag s e mb)).totalInvested
      · have hye : (0 : ℚ) < (durationDays s e : ℚ) / (1461 / 4) := by
          apply div_pos
          · exact_mod_cast lt_of_lt_of_le (by norm_num : (0 : Int) < 365) hdur
          · norm_num
        rw [if_pos ⟨hr0, hye⟩, if_neg (by rw [hfin]; exact Bool.false_ne_true)]
      · rw [if_neg (fun hc => hr0 hc.1)]

end C6Lemmas

end BacktestEngine

open BacktestEngine in
lemma c6_run_ti :
    (run c6Pow c6Dl (ahr999PercentileStrategy c6Dl 1000 c6Cfg) ⟨2020, 1, 1⟩ ⟨2020, 12, 31⟩ 1000).totalInvested = 25000 / 761 := by
  rw [(run_fields c6Dl (ahr999PercentileStrategy c6Dl 1000 c6Cfg) ⟨2020, 1, 1⟩ ⟨2020, 12, 31⟩ 1000 c6Pow).1]
  exact c6_ti

open BacktestEngine in
lemma c6_run_fpv :
    (run c6Pow c6Dl (ahr999PercentileStrategy c6Dl 1000 c6Cfg) ⟨2020, 1, 1⟩ ⟨2020, 12, 31⟩ 1000).finalPortfolioValue = 0 := by
  rw [(run_fields c6Dl (ahr999PercentileStrategy c6Dl 1000 c6Cfg) ⟨2020, 1, 1⟩ ⟨2020, 12, 31⟩ 1000 c6Pow).2.2.2.2.2,
    if_neg (by rw [c6_ti]; norm_num),
    if_pos (show isAHR999FamilyTag (ahr999PercentileStrategy c6Dl 1000 c6Cfg).tag = true from rfl),
    c6_fp, mul_zero]

open BacktestEngine in
/-- A 366-day unlimited-budget percentile run over `c6Dl` invests once
(2020-01-01) and ends on a gap day, so the final value is 0 and the
geometric formula of the spec evaluates to exactly −100% — finite and far
below the 1,000,000% cap — yet the code reports the linear fallback
−12175/122 ≈ −99.8%, because it also falls back whenever the return ratio
is not positive. -/
theorem C6_counterexample :
    (run c6Pow c6Dl (ahr999PercentileStrategy c6Dl 1000 c6Cfg) ⟨2020, 1, 1⟩ ⟨2020, 12, 31⟩ 1000).durationDays = 366 ∧
    0 < (run c6Pow c6Dl (ahr999PercentileStrategy c6Dl 1000 c6Cfg) ⟨2020, 1, 1⟩ ⟨2020, 12, 31⟩ 1000).totalInvested ∧
    ((c6Pow ((run c6Pow c6Dl (ahr999PercentileStrategy c6Dl 1000 c6Cfg) ⟨2020, 1, 1⟩ ⟨2020, 12, 31⟩ 1000).finalPortfolioValue /
        (run c6Pow c6Dl (ahr999PercentileStrategy c6Dl 1000 c6Cfg) ⟨2020, 1, 1⟩ ⟨2020, 12, 31⟩ 1000).totalInvested)
        ((1461 / 4) / 366)).sub (.fin 1)).mul (.fin 100) = .fin (-100) ∧
    (JsNum.fin (-100)).isFinite = true ∧
    (JsNum.fin (-100)).lt (.fin 1000000) = true ∧
    (run c6Pow c6Dl (ahr999PercentileStrategy c6Dl 1000 c6Cfg) ⟨2020, 1, 1⟩ ⟨2020, 12, 31⟩ 1000).annualizedReturn = .fin (-12175 / 122) ∧
    JsNum.fin (-12175 / 122) ≠ JsNum.fin (-100) := by
  have hti : 0 < (run c6Pow c6Dl (ahr999PercentileStrategy c6Dl 1000 c6Cfg) ⟨2020, 1, 1⟩ ⟨2020, 12, 31⟩ 1000).totalInvested := by
    rw [c6_run_ti]
    norm_num
  have hcases := run_annualized_cases c6Pow c6Dl (ahr999PercentileStrategy c6Dl 1000 c6Cfg)
    ⟨2020, 1, 1⟩ ⟨2020, 12, 31⟩ 1000 hti
  have hdur : durationDays ⟨2020, 1, 1⟩ ⟨2020, 12, 31⟩ = 366 := by decide
  refine ⟨?_, hti, ?_, rfl, by norm_num [JsNum.lt], ?_, ?_⟩
  · rw [(run_fields c6Dl (ahr999PercentileStrategy c6Dl 1000 c6Cfg) ⟨2020, 1, 1⟩ ⟨2020, 12, 31⟩ 1000 c6Pow).2.2.2.2.1, hdur]
  · rw [c6_run_fpv, zero_div]
    norm_num [c6Pow, JsNum.sub, JsNum.add, JsNum.neg, JsNum.mul]
  · rw [hcases.2.2.2 (by omega) (Or.inl (by rw [c6_run_fpv, zero_div])),
      hcases.1, c6_run_fpv, c6_run_ti, hdur]
    norm_num
  · simp only [ne_eq, JsNum.fin.injEq]
    norm_num


open BacktestEngine in
/-- **C6** (amended): for every run with `totalInvested > 0`, the
annualized return is the positive-infinity sentinel when
`durationDays < 365`; for `durationDays >= 365` it equals the geometric
formula `((finalPortfolioValue/totalInvested)^(365.25/durationDays) - 1) * 100`
when the return ratio is positive and that value is finite and below
1,000,000, and otherwise — including when the ratio is zero or negative,
not only when the geometric value is non-finite or too large — it falls
back to the linear scaling `totalReturn / yearsElapsed`. -/
theorem C6_amended_annualized_return (jsPow : ℚ → ℚ → JsNum) (dl : DataLoader)
    {σ : Type} (strat : Strat σ) (s e : Ymd) (mb : ℚ)
    (hti : 0 < (run jsPow dl strat s e mb).totalInvested) :
    (run jsPow dl strat s e mb).totalReturn =
      ((run jsPow dl strat s e mb).finalPortfolioValue - (run jsPow dl strat s e mb).totalInvested) /
        (run jsPow dl strat s e mb).totalInvested * 100 ∧
    (durationDays s e < 365 →
      (run jsPow dl strat s e mb).annualizedReturn = .inf true) ∧
    (365 ≤ durationDays s e →
      0 < (run jsPow dl strat s e mb).finalPortfolioValue / (run jsPow dl strat s e mb).totalInvested →
      ((((jsPow ((run jsPow dl strat s e mb).finalPortfolioValue / (run jsPow dl strat s e mb).totalInvested)
            (1 / ((durationDays s e : ℚ) / (1461 / 4)))).sub (.fin 1)).mul (.fin 100)).isFinite &&
       (((jsPow ((run jsPow dl strat s e mb).finalPortfolioValue / (run jsPow dl strat s e mb).totalInvested)
            (1 / ((durationDays s e : ℚ) / (1461 / 4)))).sub (.fin 1)).mul (.fin 100)).lt (.fin 1000000)) = true →
      (run jsPow dl strat s e mb).annualizedReturn =
        (((jsPow ((run jsPow dl strat s e mb).finalPortfolioValue / (run jsPow dl strat s e mb).totalInvested)
            (1 / ((durationDays s e : ℚ) / (1461 / 4)))).sub (.fin 1)).mul (.fin 100))) ∧
    (365 ≤ durationDays s e →
      ((run jsPow dl strat s e mb).finalPortfolioValue / (run jsPow dl strat s e mb).totalInvested ≤ 0 ∨
       ((((jsPow ((run jsPow dl strat s e mb).finalPortfolioValue / (run jsPow dl strat s e mb).totalInvested)
            (1 / ((durationDays s e : ℚ) / (1461 / 4)))).sub (.fin 1)).mul (.fin 100)).isFinite &&
        (((jsPow ((run jsPow dl strat s e mb).finalPortfolioValue / (run jsPow dl strat s e mb).totalInvested)
            (1 / ((durationDays s e : ℚ) / (1461 / 4)))).sub (.fin 1)).mul (.fin 100)).lt (.fin 1000000)) = false) →
      (run jsPow dl strat s e mb).annualizedReturn =
        .fin ((run jsPow dl strat s e mb).totalReturn / ((durationDays s e : ℚ) / (1461 / 4)))) :=
  run_annualized_cases jsPow dl strat s e mb hti

open BacktestEngine in
theorem C6_witness :
    (run c6Pow c6Dl (ahr999PercentileStrategy c6Dl 1000 c6Cfg) ⟨2020, 1, 1⟩ ⟨2020, 12, 31⟩ 1000).annualizedReturn =
      .fin ((run c6Pow c6Dl (ahr999PercentileStrategy c6Dl 1000 c6Cfg) ⟨2020, 1, 1⟩ ⟨2020, 12, 31⟩ 1000).totalReturn /
        ((durationDays ⟨2020, 1, 1⟩ ⟨2020, 12, 31⟩ : ℚ) / (1461 / 4))) := by
  refine (C6_amended_annualized_return c6Pow c6Dl (ahr999PercentileStrategy c6Dl 1000 c6Cfg)
    ⟨2020, 1, 1⟩ ⟨2020, 12, 31⟩ 1000 ?_).2.2.2 (by decide) (Or.inl ?_)
  · rw [c6_run_ti]
    norm_num
  · rw [c6_run_fpv, zero_div]

/-! ## Executed-amount rules (claim C3) -/

lemma nextDay_same_month {a : Ymd} (h : (nextDay a).m = a.m) :
    (nextDay a).y = a.y ∧ (nextDay a).d = a.d + 1 := by
  unfold nextDay at h ⊢
  split_ifs at h ⊢ with h1 h2
  · exact ⟨rfl, rfl⟩
  · exfalso; simp only at h; omega
  · exfalso; simp only at h; omega

namespace BacktestEngine

lemma monthEndNumber_ge {x : Ymd} (hx : Valid x) : dayNumber x ≤ monthEndNumber x := by
  obtain ⟨Y, M, D⟩ := x
  obtain ⟨-, -, -, -, h5⟩ := hx
  simp only [monthEndNumber, dayNumber] at *
  omega

lemma monthEndNumber_nextDay_same {a : Ymd} (hy : (nextDay a).y = a.y)
    (hm : (nextDay a).m = a.m) :
    monthEndNumber (nextDay a) = monthEndNumber a := by
  unfold monthEndNumber
  rw [hy, hm]

/-- Days of `x`'s month still inside the range ending at `e`, counting `x`
itself. -/
def remDays (e x : Ymd) : Int := min (dayNumber e) (monthEndNumber x) - dayNumber x + 1

lemma remDays_pos {e x : Ymd} (hx : Valid x) (hxe : dayNumber x ≤ dayNumber e) :
    1 ≤ remDays e x := by
  have := monthEndNumber_ge hx
  unfold remDays
  omega

lemma remDays_nextDay {e x : Ymd} (hx : Valid x) (hm : (nextDay x).m = x.m) :
    remDays e (nextDay x) = remDays e x - 1 := by
  obtain ⟨hy, -⟩ := nextDay_same_month hm
  unfold remDays
  rw [monthEndNumber_nextDay_same hy hm, dayNumber_nextDay hx]
  omega

section C3Infra

variable (dl : DataLoader) {σ : Type} (strat : Strat σ) (s e : Ymd) (mb tb : ℚ)

lemma proportionalBudget_eq {x : Ymd} (hsx : dayNumber s ≤ dayNumber x) :
    proportionalBudget s e x mb = (remDays e x : ℚ) * (mb / DataLoader.daysPerMonth) := by
  unfold proportionalBudget remDays
  dsimp only
  have h1 : (if dayNumber x > dayNumber s then dayNumber x else dayNumber s) = dayNumber x := by
    split_ifs <;> omega
  have h2 : (if dayNumber e < monthEndNumber x then dayNumber e else monthEndNumber x) =
      min (dayNumber e) (monthEndNumber x) := by
    split_ifs <;> omega
  rw [h1, h2]
  ring

lemma stepDay_prevDate (st : RunState σ) (cur : Ymd) :
    (stepDay dl strat s e mb tb st cur).prevDate = some cur := rfl

lemma prevDate_stateAt_succ {k : Nat} (hk : k < numDays s e) :
    (stateAt dl strat s e mb tb (k + 1)).prevDate = some (shiftDays s k) := by
  rw [stateAt_succ dl strat s e mb tb hk]
  exact stepDay_prevDate dl strat s e mb tb _ _

lemma boundaryPhase_monthsElapsed (st : RunState σ) (cur : Ymd) :
    (boundaryPhase strat s e mb st cur).monthsElapsed =
      (if isFirstDayOfMonth cur st.prevDate then st.monthsElapsed + 1 else st.monthsElapsed) := by
  unfold boundaryPhase
  split_ifs <;> rfl

lemma boundaryPhase_cash (st : RunState σ) (cur : Ymd) :
    (boundaryPhase strat s e mb st cur).cashBalance =
      (if isFirstDayOfMonth cur st.prevDate then
        creditCash strat.tag s e cur mb st.cashBalance else st.cashBalance) := by
  unfold boundaryPhase
  split_ifs <;> rfl

lemma boundaryPhase_stratState (st : RunState σ) (cur : Ymd) :
    (boundaryPhase strat s e mb st cur).stratState =
      (if isFirstDayOfMonth cur st.prevDate then
        strat.onMonthStart cur st.stratState else st.stratState) := by
  unfold boundaryPhase
  split_ifs <;> rfl

lemma stepDay_monthsElapsed (st : RunState σ) (cur : Ymd) :
    (stepDay dl strat s e mb tb st cur).monthsElapsed =
      (boundaryPhase strat s e mb st cur).monthsElapsed := by
  rcases hgp : dl.getPriceData cur with _ | dd
  · rw [stepDay_of_skip dl strat s e mb tb st cur (Or.inl hgp)]
  · by_cases hp : dd.price > 0
    · rw [stepDay_of_priced dl strat s e mb tb st cur dd hgp hp]
      exact (tradeAndRecord_spec strat s e tb _ cur dd).2.2.2.2.2.2.1
    · rw [stepDay_of_skip dl strat s e mb tb st cur (Or.inr ⟨dd, hgp, hp⟩)]

lemma monthsElapsed_stateAt (hs : Valid s) :
    ∀ k, k < numDays s e →
      (stateAt dl strat s e mb tb (k + 1)).monthsElapsed =
        monthIdx (shiftDays s k) - monthIdx s + 1 := by
  intro k
  induction k with
  | zero =>
    intro hk
    rw [stateAt_succ dl strat s e mb tb hk, stepDay_monthsElapsed, boundaryPhase_monthsElapsed]
    simp [stateAt, initState, isFirstDayOfMonth, shiftDays]
  | succ n ih =>
    intro hk
    have hn : n < numDays s e := by omega
    rw [stateAt_succ dl strat s e mb tb hk, stepDay_monthsElapsed, boundaryPhase_monthsElapsed,
      prevDate_stateAt_succ dl strat s e mb tb hn, ih hn]
    simp only [shiftDays]
    rcases nextDay_month_change (valid_shiftDays hs n) with ⟨hm, hidx⟩ | ⟨hm, hidx⟩
    · rw [if_neg (by simp [isFirstDayOfMonth, hm])]
      omega
    · rw [if_pos (by simp [isFirstDayOfMonth, hm])]
      omega

lemma shiftDays_dayNumber_le_e (hs : Valid s) {k : Nat} (hk : k < numDays s e) :
    dayNumber (shiftDays s k) ≤ dayNumber e := by
  rw [dayNumber_shiftDays hs]
  unfold numDays at hk
  omega

end C3Infra

/-- Loop invariant of a Daily-DCA run: nonnegative cash, total invested
bounded by the elapsed days, and (mid-month) enough cash for every
remaining in-range day of the current month. -/
def DailyInv (s e : Ymd) (mb : ℚ) (k : Nat) (st : RunState BaseState) : Prop :=
  0 ≤ st.cashBalance ∧
  st.totalInvested ≤ (k : ℚ) * (mb / DataLoader.daysPerMonth) ∧
  (∀ k', k = k' + 1 → k < numDays s e →
    (shiftDays s k).m = (shiftDays s k').m →
    (remDays e (shiftDays s k) : ℚ) * (mb / DataLoader.daysPerMonth) ≤ st.cashBalance)

section C3Daily

variable (dl : DataLoader) (s e : Ymd) (mb tb : ℚ)

lemma daily_boundary_cash (hs : Valid s) {k : Nat} (hk : k < numDays s e)
    (hP : DailyInv s e mb k (stateAt dl (dailyDCAStrategy mb) s e mb tb k)) :
    (remDays e (shiftDays s k) : ℚ) * (mb / DataLoader.daysPerMonth) ≤
      (boundaryPhase (dailyDCAStrategy mb) s e mb
        (stateAt dl (dailyDCAStrategy mb) s e mb tb k) (shiftDays s k)).cashBalance := by
  obtain ⟨hP1, hP2, hP3⟩ := hP
  rw [boundaryPhase_cash]
  by_cases hb : isFirstDayOfMonth (shiftDays s k)
      (stateAt dl (dailyDCAStrategy mb) s e mb tb k).prevDate
  · rw [if_pos hb]
    have hcc : creditCash (dailyDCAStrategy mb).tag s e (shiftDays s k) mb
        (stateAt dl (dailyDCAStrategy mb) s e mb tb k).cashBalance =
        (stateAt dl (dailyDCAStrategy mb) s e mb tb k).cashBalance +
          proportionalBudget s e (shiftDays s k) mb := rfl
    rw [hcc, proportionalBudget_eq s e mb (by rw [dayNumber_shiftDays hs]; omega)]
    linarith
  · rw [if_neg hb]
    cases k with
    | zero =>
      exfalso
      apply hb
      rfl
    | succ k' =>
      have hprev := prevDate_stateAt_succ dl (dailyDCAStrategy mb) s e mb tb
        (show k' < numDays s e by omega)
      have hmeq : (shiftDays s (k' + 1)).m = (shiftDays s k').m := by
        by_contra hne
        apply hb
        rw [hprev]
        simp [isFirstDayOfMonth, hne]
      exact hP3 k' rfl hk hmeq

end C3Daily

section C3DailyStep

variable (dl : DataLoader) (s e : Ymd) (mb tb : ℚ)

lemma executedAmount_le_req (tag : StratTag) (ti req : ℚ)
    (hnu : isUnlimitedBudgetTag tag = false) :
    executedAmount tag tb ti req ≤ req := by
  unfold executedAmount
  rw [hnu]
  simp only [Bool.false_eq_true, if_false]
  exact min_le_left _ _

lemma executedAmount_nonneg (tag : StratTag) (ti req : ℚ) (hreq : 0 ≤ req) :
    0 ≤ executedAmount tag tb ti req := by
  unfold executedAmount
  split_ifs
  · exact hreq
  · exact le_min hreq (le_max_left 0 _)

lemma dailyInv_holds (hs : Valid s) (hse : dayNumber s ≤ dayNumber e) (hmb : 0 < mb) :
    ∀ k, k ≤ numDays s e →
      DailyInv s e mb k (stateAt dl (dailyDCAStrategy mb) s e mb tb k) := by
  have hdaily : 0 < mb / DataLoader.daysPerMonth :=
    div_pos hmb (by norm_num [DataLoader.daysPerMonth])
  refine stateAt_ind dl (dailyDCAStrategy mb) s e mb tb ?_ ?_
  · refine ⟨le_refl 0, by norm_num [initState], ?_⟩
    intro k' hk'
    omega
  · intro k hk hP
    have hvk : Valid (shiftDays s k) := valid_shiftDays hs k
    have hke : dayNumber (shiftDays s k) ≤ dayNumber e :=
      shiftDays_dayNumber_le_e s e hs hk
    have hrem1 : 1 ≤ remDays e (shiftDays s k) := remDays_pos hvk hke
    have hrem1q : (1 : ℚ) ≤ ((remDays e (shiftDays s k) : Int) : ℚ) := by
      exact_mod_cast hrem1
    have hcash1 := daily_boundary_cash dl s e mb tb hs hk hP
    have hdle : mb / DataLoader.daysPerMonth ≤
        (boundaryPhase (dailyDCAStrategy mb) s e mb
          (stateAt dl (dailyDCAStrategy mb) s e mb tb k) (shiftDays s k)).cashBalance := by
      refine le_trans ?_ hcash1
      nlinarith
    obtain ⟨hP1, hP2, hP3⟩ := hP
    obtain ⟨b1, b2, b3, b4, b5⟩ := boundaryPhase_fields (dailyDCAStrategy mb) s e mb
      (stateAt dl (dailyDCAStrategy mb) s e mb tb k) (shiftDays s k)
    rw [stateAt_succ dl (dailyDCAStrategy mb) s e mb tb hk]
    have hnextm : ∀ k'', k + 1 = k'' + 1 → k + 1 < numDays s e →
        (shiftDays s (k + 1)).m = (shiftDays s k'').m →
        ((remDays e (shiftDays s (k + 1)) : Int) : ℚ) =
          ((remDays e (shiftDays s k) : Int) : ℚ) - 1 := by
      intro k'' heq hk1 hmeq
      have hk'' : k'' = k := by omega
      rw [hk''] at hmeq
      have : remDays e (shiftDays s (k + 1)) = remDays e (shiftDays s k) - 1 := by
        have : (shiftDays s (k + 1)).m = (nextDay (shiftDays s k)).m := rfl
        exact remDays_nextDay hvk (by rw [← this]; exact hmeq)
      rw [this]
      push_cast
      ring
    rcases hgp : dl.getPriceData (shiftDays s k) with _ | dd
    · rw [stepDay_of_skip dl (dailyDCAStrategy mb) s e mb tb _ _ (Or.inl hgp)]
      refine ⟨le_trans (by nlinarith) hcash1, ?_, ?_⟩
      · simp only [b1]
        refine le_trans hP2 ?_
        push_cast
        nlinarith
      · intro k'' heq hk1 hmeq
        rw [hnextm k'' heq hk1 hmeq]
        simp only
        nlinarith
    · by_cases hp : dd.price > 0
      · rw [stepDay_of_priced dl (dailyDCAStrategy mb) s e mb tb _ _ dd hgp hp]
        have ht := tradeAndRecord_spec (dailyDCAStrategy mb) s e tb
          (boundaryPhase (dailyDCAStrategy mb) s e mb
            (stateAt dl (dailyDCAStrategy mb) s e mb tb k) (shiftDays s k)) (shiftDays s k) dd
        dsimp only at ht
        obtain ⟨-, t2, -, t4, -, -, -, -⟩ := ht
        have hreq : ((dailyDCAStrategy mb).shouldInvest (shiftDays s k) dd.price dd
            ((dailyDCAStrategy mb).updatePriceHistory dd.price
              (boundaryPhase (dailyDCAStrategy mb) s e mb
                (stateAt dl (dailyDCAStrategy mb) s e mb tb k) (shiftDays s k)).stratState)).1 =
            mb / DataLoader.daysPerMonth := rfl
        rw [hreq] at t2 t4
        set exec := executedAmount (dailyDCAStrategy mb).tag tb
          (boundaryPhase (dailyDCAStrategy mb) s e mb
            (stateAt dl (dailyDCAStrategy mb) s e mb tb k) (shiftDays s k)).totalInvested
          (mb / DataLoader.daysPerMonth) with hexec
        have hexle : exec ≤ mb / DataLoader.daysPerMonth :=
          executedAmount_le_req tb _ _ _ rfl
        have hexnn : 0 ≤ exec := executedAmount_nonneg tb _ _ _ hdaily.le
        refine ⟨?_, ?_, ?_⟩
        · simp only [t4]
          split_ifs
          · linarith
          · linarith [le_trans (by nlinarith : (0:ℚ) ≤
              ((remDays e (shiftDays s k) : Int) : ℚ) * (mb / DataLoader.daysPerMonth)) hcash1]
        · simp only [t2, b1]
          split_ifs
          · push_cast
            nlinarith
          · push_cast
            nlinarith
        · intro k'' heq hk1 hmeq
          rw [hnextm k'' heq hk1 hmeq]
          simp only [t4]
          split_ifs
          · nlinarith
          · nlinarith
      · rw [stepDay_of_skip dl (dailyDCAStrategy mb) s e mb tb _ _ (Or.inr ⟨dd, hgp, hp⟩)]
        refine ⟨le_trans (by nlinarith) hcash1, ?_, ?_⟩
        · simp only [b1]
          refine le_trans hP2 ?_
          push_cast
          nlinarith
        · intro k'' heq hk1 hmeq
          rw [hnextm k'' heq hk1 hmeq]
          simp only
          nlinarith

end C3DailyStep

/-- Loop invariant of a Monthly-DCA run: the engine's cash balance is the
credited months minus what was invested, and the invested total leaves at
least one month's budget of cash unless a purchase already happened in the
reference month. -/
def MonthlyInv (s : Ymd) (mb : ℚ) (dOM : Int) (k : Nat) (st : RunState BaseState) : Prop :=
  st.cashBalance = (st.monthsElapsed : ℚ) * mb - st.totalInvested ∧
  (k = 0 → st.monthsElapsed = 0 ∧ st.totalInvested = 0) ∧
  (∀ k', k = k' + 1 →
    (st.totalInvested ≤ ((st.monthsElapsed - 1 : Int) : ℚ) * mb ∨
     (st.totalInvested ≤ ((st.monthsElapsed : Int) : ℚ) * mb ∧
      ∃ j, j ≤ k' ∧ monthIdx (shiftDays s j) = monthIdx (shiftDays s k') ∧
        (shiftDays s j).d = dOM)))

section C3Monthly

variable (dl : DataLoader) (s e : Ymd) (mb tb : ℚ) (dOM : Int)

/-- At a day whose day-of-month matches the configured purchase day, no
earlier day of the same calendar month can also match. -/
lemma monthly_no_hit (hs : Valid s) {k : Nat} {b : RunState BaseState}
    (hA2 : b.totalInvested ≤ ((b.monthsElapsed - 1 : Int) : ℚ) * mb ∨
      (b.totalInvested ≤ ((b.monthsElapsed : Int) : ℚ) * mb ∧
       ∃ j, j < k ∧ monthIdx (shiftDays s j) = monthIdx (shiftDays s k) ∧
         (shiftDays s j).d = dOM))
    (hdom : (shiftDays s k).d = dOM) :
    b.totalInvested ≤ ((b.monthsElapsed - 1 : Int) : ℚ) * mb := by
  rcases hA2 with h | ⟨-, j, hj, hmi, hd⟩
  · exact h
  · exfalso
    have hjk : shiftDays s j = shiftDays s k :=
      eq_of_monthIdx_day_eq (valid_shiftDays hs j) (valid_shiftDays hs k) hmi
        (hd.trans hdom.symm)
    have h2 := congrArg dayNumber hjk
    rw [dayNumber_shiftDays hs, dayNumber_shiftDays hs] at h2
    omega

lemma monthlyInv_succ_of_facts (k : Nat) {b st' : RunState BaseState}
    (hA1 : b.cashBalance = (b.monthsElapsed : ℚ) * mb - b.totalInvested)
    (hA2 : b.totalInvested ≤ ((b.monthsElapsed - 1 : Int) : ℚ) * mb ∨
      (b.totalInvested ≤ ((b.monthsElapsed : Int) : ℚ) * mb ∧
       ∃ j, j < k ∧ monthIdx (shiftDays s j) = monthIdx (shiftDays s k) ∧
         (shiftDays s j).d = dOM))
    (hc : st'.cashBalance = b.cashBalance) (hti : st'.totalInvested = b.totalInvested)
    (hmE : st'.monthsElapsed = b.monthsElapsed) :
    MonthlyInv s mb dOM (k + 1) st' := by
  refine ⟨by rw [hc, hti, hmE]; exact hA1,
    fun h0 => absurd h0 (Nat.succ_ne_zero k), ?_⟩
  intro k'' heq
  replace heq : k'' = k := by omega
  rw [heq, hti, hmE]
  rcases hA2 with h | ⟨h, j, hj, hmi, hd⟩
  · exact Or.inl h
  · exact Or.inr ⟨h, j, by omega, hmi, hd⟩

lemma monthlyInv_succ_of_trade (hs : Valid s) (hmb : 0 < mb) (k : Nat)
    {b st' : RunState BaseState} {exec : ℚ}
    (hA1 : b.cashBalance = (b.monthsElapsed : ℚ) * mb - b.totalInvested)
    (hA2 : b.totalInvested ≤ ((b.monthsElapsed - 1 : Int) : ℚ) * mb ∨
      (b.totalInvested ≤ ((b.monthsElapsed : Int) : ℚ) * mb ∧
       ∃ j, j < k ∧ monthIdx (shiftDays s j) = monthIdx (shiftDays s k) ∧
         (shiftDays s j).d = dOM))
    (hdom : (shiftDays s k).d = dOM) (hexle : exec ≤ mb)
    (hc : st'.cashBalance = b.cashBalance - exec)
    (hti : st'.totalInvested = b.totalInvested + exec)
    (hmE : st'.monthsElapsed = b.monthsElapsed) :
    MonthlyInv s mb dOM (k + 1) st' := by
  have hA2' := monthly_no_hit s mb dOM hs hA2 hdom
  refine ⟨by rw [hc, hti, hmE, hA1]; ring,
    fun h0 => absurd h0 (Nat.succ_ne_zero k), ?_⟩
  intro k'' heq
  replace heq : k'' = k := by omega
  rw [heq, hti, hmE]
  refine Or.inr ⟨?_, k, le_refl k, rfl, hdom⟩
  push_cast at hA2' ⊢
  linarith

lemma monthly_bp_of_inv (hs : Valid s) (hmb : 0 < mb) {k : Nat} (hk : k < numDays s e)
    (hP : MonthlyInv s mb dOM k (stateAt dl (monthlyDCAStrategy mb dOM) s e mb tb k)) :
    (boundaryPhase (monthlyDCAStrategy mb dOM) s e mb
        (stateAt dl (monthlyDCAStrategy mb dOM) s e mb tb k) (shiftDays s k)).cashBalance =
      ((boundaryPhase (monthlyDCAStrategy mb dOM) s e mb
        (stateAt dl (monthlyDCAStrategy mb dOM) s e mb tb k) (shiftDays s k)).monthsElapsed : ℚ) * mb -
      (boundaryPhase (monthlyDCAStrategy mb dOM) s e mb
        (stateAt dl (monthlyDCAStrategy mb dOM) s e mb tb k) (shiftDays s k)).totalInvested ∧
    ((boundaryPhase (monthlyDCAStrategy mb dOM) s e mb
        (stateAt dl (monthlyDCAStrategy mb dOM) s e mb tb k) (shiftDays s k)).totalInvested ≤
      (((boundaryPhase (monthlyDCAStrategy mb dOM) s e mb
        (stateAt dl (monthlyDCAStrategy mb dOM) s e mb tb k) (shiftDays s k)).monthsElapsed - 1 : Int) : ℚ) * mb ∨
     ((boundaryPhase (monthlyDCAStrategy mb dOM) s e mb
        (stateAt dl (monthlyDCAStrategy mb dOM) s e mb tb k) (shiftDays s k)).totalInvested ≤
       (((boundaryPhase (monthlyDCAStrategy mb dOM) s e mb
        (stateAt dl (monthlyDCAStrategy mb dOM) s e mb tb k) (shiftDays s k)).monthsElapsed : Int) : ℚ) * mb ∧
      ∃ j, j < k ∧ monthIdx (shiftDays s j) = monthIdx (shiftDays s k) ∧
        (shiftDays s j).d = dOM)) := by
  obtain ⟨hP1, hP2, hP3⟩ := hP
  obtain ⟨b1, -, -, -, -⟩ := boundaryPhase_fields (monthlyDCAStrategy mb dOM) s e mb
    (stateAt dl (monthlyDCAStrategy mb dOM) s e mb tb k) (shiftDays s k)
  rw [boundaryPhase_cash, boundaryPhase_monthsElapsed, b1]
  by_cases hb : isFirstDayOfMonth (shiftDays s k)
      (stateAt dl (monthlyDCAStrategy mb dOM) s e mb tb k).prevDate
  · rw [if_pos hb, if_pos hb]
    have hcc : creditCash (monthlyDCAStrategy mb dOM).tag s e (shiftDays s k) mb
        (stateAt dl (monthlyDCAStrategy mb dOM) s e mb tb k).cashBalance =
        (stateAt dl (monthlyDCAStrategy mb dOM) s e mb tb k).cashBalance + mb := rfl
    rw [hcc]
    constructor
    · rw [hP1]
      push_cast
      ring
    · left
      cases k with
      | zero =>
        obtain ⟨hz1, hz2⟩ := hP2 rfl
        rw [hz2, hz1]
        simp
      | succ k' =>
        rcases hP3 k' rfl with h | ⟨h, -⟩
        · push_cast at h ⊢
          linarith
        · push_cast at h ⊢
          linarith
  · rw [if_neg hb, if_neg hb]
    refine ⟨hP1, ?_⟩
    cases k with
    | zero => exact absurd rfl hb
    | succ k' =>
      have hprev := prevDate_stateAt_succ dl (monthlyDCAStrategy mb dOM) s e mb tb
        (show k' < numDays s e by omega)
      rw [hprev] at hb
      have hmeq : (shiftDays s (k' + 1)).m = (shiftDays s k').m := by
        by_contra hne
        exact hb (by simp [isFirstDayOfMonth, hne])
      have hidx : monthIdx (shiftDays s (k' + 1)) = monthIdx (shiftDays s k') := by
        rcases nextDay_month_change (valid_shiftDays hs k') with ⟨-, h2⟩ | ⟨h1, -⟩
        · exact h2
        · exact absurd hmeq h1
      rcases hP3 k' rfl with h | ⟨h, j, hj, hmi, hd⟩
      · exact Or.inl h
      · exact Or.inr ⟨h, j, by omega, hmi.trans hidx.symm, hd⟩

lemma monthlyInv_holds (hs : Valid s) (hmb : 0 < mb) :
    ∀ k, k ≤ numDays s e →
      MonthlyInv s mb dOM k (stateAt dl (monthlyDCAStrategy mb dOM) s e mb tb k) := by
  refine stateAt_ind dl (monthlyDCAStrategy mb dOM) s e mb tb ?_ ?_
  · exact ⟨by norm_num [initState], fun _ => ⟨rfl, rfl⟩,
      fun k' hk' => absurd hk' (by omega)⟩
  · intro k hk hP
    obtain ⟨hA1, hA2⟩ := monthly_bp_of_inv dl s e mb tb dOM hs hmb hk hP
    rw [stateAt_succ dl (monthlyDCAStrategy mb dOM) s e mb tb hk]
    rcases hgp : dl.getPriceData (shiftDays s k) with _ | dd
    · rw [stepDay_of_skip dl (monthlyDCAStrategy mb dOM) s e mb tb _ _ (Or.inl hgp)]
      exact monthlyInv_succ_of_facts s mb dOM k hA1 hA2 rfl rfl rfl
    · by_cases hp : dd.price > 0
      · rw [stepDay_of_priced dl (monthlyDCAStrategy mb dOM) s e mb tb _ _ dd hgp hp]
        have ht := tradeAndRecord_spec (monthlyDCAStrategy mb dOM) s e tb
          (boundaryPhase (monthlyDCAStrategy mb dOM) s e mb
            (stateAt dl (monthlyDCAStrategy mb dOM) s e mb tb k) (shiftDays s k))
          (shiftDays s k) dd
        dsimp only at ht
        obtain ⟨-, t2, -, t4, -, -, t7, -⟩ := ht
        have hreq : ((monthlyDCAStrategy mb dOM).shouldInvest (shiftDays s k) dd.price dd
            ((monthlyDCAStrategy mb dOM).updatePriceHistory dd.price
              (boundaryPhase (monthlyDCAStrategy mb dOM) s e mb
                (stateAt dl (monthlyDCAStrategy mb dOM) s e mb tb k) (shiftDays s k)).stratState)).1 =
            (if (shiftDays s k).d = dOM then mb else 0) := rfl
        rw [hreq] at t2 t4
        by_cases hdom : (shiftDays s k).d = dOM
        · rw [if_pos hdom] at t2 t4
          by_cases hex : 0 < executedAmount (monthlyDCAStrategy mb dOM).tag tb
              (boundaryPhase (monthlyDCAStrategy mb dOM) s e mb
                (stateAt dl (monthlyDCAStrategy mb dOM) s e mb tb k) (shiftDays s k)).totalInvested mb
          · rw [if_pos ⟨hmb, hex⟩] at t2
            rw [if_pos ⟨⟨hmb, hex⟩, rfl⟩] at t4
            exact monthlyInv_succ_of_trade s mb dOM hs hmb k hA1 hA2 hdom
              (executedAmount_le_req tb (monthlyDCAStrategy mb dOM).tag
                (boundaryPhase (monthlyDCAStrategy mb dOM) s e mb
                  (stateAt dl (monthlyDCAStrategy mb dOM) s e mb tb k)
                  (shiftDays s k)).totalInvested mb rfl) t4 t2 t7
          · rw [if_neg (fun hc => hex hc.2)] at t2
            rw [if_neg (fun hc => hex hc.1.2)] at t4
            exact monthlyInv_succ_of_facts s mb dOM k hA1 hA2 t4
              (t2.trans (add_zero _)) t7
        · rw [if_neg hdom] at t2 t4
          rw [if_neg (fun hc => lt_irrefl (0 : ℚ) hc.1)] at t2
          rw [if_neg (fun hc => lt_irrefl (0 : ℚ) hc.1.1)] at t4
          exact monthlyInv_succ_of_facts s mb dOM k hA1 hA2 t4
            (t2.trans (add_zero _)) t7
      · rw [stepDay_of_skip dl (monthlyDCAStrategy mb dOM) s e mb tb _ _
          (Or.inr ⟨dd, hgp, hp⟩)]
        exact monthlyInv_succ_of_facts s mb dOM k hA1 hA2 rfl rfl rfl

end C3Monthly

section C3Exec

variable (dl : DataLoader) (s e : Ymd) (mb : ℚ) (dOM : Int)

lemma computeTotalBudget_nonneg (hse : dayNumber s ≤ dayNumber e) (hmb : 0 < mb)
    (tag : StratTag) : 0 ≤ computeTotalBudget tag s e mb := by
  have hdur : (0 : ℚ) ≤ ((durationDays s e : Int) : ℚ) := by
    have h : (0 : Int) ≤ durationDays s e := by unfold durationDays; omega
    exact_mod_cast h
  have hM : (0 : ℚ) ≤ ((getCompleteMonthsCount s e : Int) : ℚ) := by
    have h : (0 : Int) ≤ getCompleteMonthsCount s e := by
      unfold getCompleteMonthsCount
      split_ifs <;> omega
    exact_mod_cast h
  have hdm : 0 ≤ mb / DataLoader.daysPerMonth :=
    (div_pos hmb (by norm_num [DataLoader.daysPerMonth])).le
  cases tag with
  | dailyDCA =>
    simp only [computeTotalBudget]
    exact mul_nonneg hdur hdm
  | monthlyDCA =>
    simp only [computeTotalBudget]
    exact mul_nonneg hM hmb.le
  | ahr999Percentile u =>
    simp only [computeTotalBudget]
    split_ifs
    · exact mul_nonneg hM hmb.le
    · exact mul_nonneg hdur hdm
  | dynamicAHR999 cap =>
    simp only [computeTotalBudget]
    split_ifs
    · exact mul_nonneg hdur hdm
    · exact mul_nonneg hM hmb.le

lemma daily_exec (hs : Valid s) (hse : dayNumber s ≤ dayNumber e) (hmb : 0 < mb)
    {k : Nat} (hk : k < numDays s e) :
    executedAmount (dailyDCAStrategy mb).tag (computeTotalBudget (dailyDCAStrategy mb).tag s e mb)
      (boundaryPhase (dailyDCAStrategy mb) s e mb
        (stateAt dl (dailyDCAStrategy mb) s e mb (computeTotalBudget (dailyDCAStrategy mb).tag s e mb) k)
        (shiftDays s k)).totalInvested (mb / DataLoader.daysPerMonth) =
      mb / DataLoader.daysPerMonth ∧
    mb / DataLoader.daysPerMonth ≤
      (boundaryPhase (dailyDCAStrategy mb) s e mb
        (stateAt dl (dailyDCAStrategy mb) s e mb (computeTotalBudget (dailyDCAStrategy mb).tag s e mb) k)
        (shiftDays s k)).cashBalance := by
  have hdaily : 0 < mb / DataLoader.daysPerMonth :=
    div_pos hmb (by norm_num [DataLoader.daysPerMonth])
  have hP := dailyInv_holds dl s e mb (computeTotalBudget (dailyDCAStrategy mb).tag s e mb)
    hs hse hmb k hk.le
  have hcash1 := daily_boundary_cash dl s e mb
    (computeTotalBudget (dailyDCAStrategy mb).tag s e mb) hs hk hP
  obtain ⟨-, hP2, -⟩ := hP
  obtain ⟨b1, -, -, -, -⟩ := boundaryPhase_fields (dailyDCAStrategy mb) s e mb
    (stateAt dl (dailyDCAStrategy mb) s e mb (computeTotalBudget (dailyDCAStrategy mb).tag s e mb) k)
    (shiftDays s k)
  have hrem1 : 1 ≤ remDays e (shiftDays s k) :=
    remDays_pos (valid_shiftDays hs k) (shiftDays_dayNumber_le_e s e hs hk)
  have hrem1q : (1 : ℚ) ≤ ((remDays e (shiftDays s k) : Int) : ℚ) := by exact_mod_cast hrem1
  have hcash : mb / DataLoader.daysPerMonth ≤
      (boundaryPhase (dailyDCAStrategy mb) s e mb
        (stateAt dl (dailyDCAStrategy mb) s e mb (computeTotalBudget (dailyDCAStrategy mb).tag s e mb) k)
        (shiftDays s k)).cashBalance := by
    refine le_trans ?_ hcash1
    nlinarith
  refine ⟨?_, hcash⟩
  have hdur : (k : Int) + 1 ≤ durationDays s e := by
    unfold numDays at hk
    unfold durationDays
    omega
  have hdurq : (k : ℚ) + 1 ≤ ((durationDays s e : Int) : ℚ) := by exact_mod_cast hdur
  have hti : (boundaryPhase (dailyDCAStrategy mb) s e mb
      (stateAt dl (dailyDCAStrategy mb) s e mb (computeTotalBudget (dailyDCAStrategy mb).tag s e mb) k)
      (shiftDays s k)).totalInvested ≤ (k : ℚ) * (mb / DataLoader.daysPerMonth) := by
    rw [b1]
    exact hP2
  have hTB : computeTotalBudget (dailyDCAStrategy mb).tag s e mb =
      ((durationDays s e : Int) : ℚ) * (mb / DataLoader.daysPerMonth) := rfl
  have hrem : mb / DataLoader.daysPerMonth ≤
      max 0 (computeTotalBudget (dailyDCAStrategy mb).tag s e mb -
        (boundaryPhase (dailyDCAStrategy mb) s e mb
          (stateAt dl (dailyDCAStrategy mb) s e mb (computeTotalBudget (dailyDCAStrategy mb).tag s e mb) k)
          (shiftDays s k)).totalInvested) := by
    refine le_trans ?_ (le_max_right 0 _)
    nlinarith [hti, hTB, hdaily,
      mul_nonneg (by linarith : (0 : ℚ) ≤ ((durationDays s e : Int) : ℚ) - (k : ℚ) - 1) hdaily.le]
  unfold executedAmount
  rw [show isUnlimitedBudgetTag (dailyDCAStrategy mb).tag = false from rfl]
  simp only [Bool.false_eq_true, if_false]
  exact min_eq_left hrem

lemma monthly_exec (hs : Valid s) (he : Valid e) (hse : dayNumber s ≤ dayNumber e)
    (hmb : 0 < mb) {k : Nat} (hk : k < numDays s e) (hdom : (shiftDays s k).d = dOM) :
    executedAmount (monthlyDCAStrategy mb dOM).tag
      (computeTotalBudget (monthlyDCAStrategy mb dOM).tag s e mb)
      (boundaryPhase (monthlyDCAStrategy mb dOM) s e mb
        (stateAt dl (monthlyDCAStrategy mb dOM) s e mb
          (computeTotalBudget (monthlyDCAStrategy mb dOM).tag s e mb) k)
        (shiftDays s k)).totalInvested mb = mb ∧
    mb ≤ (boundaryPhase (monthlyDCAStrategy mb dOM) s e mb
        (stateAt dl (monthlyDCAStrategy mb dOM) s e mb
          (computeTotalBudget (monthlyDCAStrategy mb dOM).tag s e mb) k)
        (shiftDays s k)).cashBalance := by
  have hP := monthlyInv_holds dl s e mb
    (computeTotalBudget (monthlyDCAStrategy mb dOM).tag s e mb) dOM hs hmb k hk.le
  obtain ⟨hA1, hA2⟩ := monthly_bp_of_inv dl s e mb
    (computeTotalBudget (monthlyDCAStrategy mb dOM).tag s e mb) dOM hs hmb hk hP
  have hA2' := monthly_no_hit s mb dOM hs hA2 hdom
  have h1 : (stateAt dl (monthlyDCAStrategy mb dOM) s e mb
      (computeTotalBudget (monthlyDCAStrategy mb dOM).tag s e mb) (k + 1)).monthsElapsed =
      (boundaryPhase (monthlyDCAStrategy mb dOM) s e mb
        (stateAt dl (monthlyDCAStrategy mb dOM) s e mb
          (computeTotalBudget (monthlyDCAStrategy mb dOM).tag s e mb) k)
        (shiftDays s k)).monthsElapsed := by
    rw [stateAt_succ dl (monthlyDCAStrategy mb dOM) s e mb
      (computeTotalBudget (monthlyDCAStrategy mb dOM).tag s e mb) hk]
    exact stepDay_monthsElapsed dl (monthlyDCAStrategy mb dOM) s e mb
      (computeTotalBudget (monthlyDCAStrategy mb dOM).tag s e mb) _ _
  have h2 := monthsElapsed_stateAt dl (monthlyDCAStrategy mb dOM) s e mb
    (computeTotalBudget (monthlyDCAStrategy mb dOM).tag s e mb) hs k hk
  have hmE : (boundaryPhase (monthlyDCAStrategy mb dOM) s e mb
      (stateAt dl (monthlyDCAStrategy mb dOM) s e mb
        (computeTotalBudget (monthlyDCAStrategy mb dOM).tag s e mb) k)
      (shiftDays s k)).monthsElapsed = monthIdx (shiftDays s k) - monthIdx s + 1 := by
    rw [← h1, h2]
  have hM : getCompleteMonthsCount s e = monthIdx e - monthIdx s + 1 := by
    unfold getCompleteMonthsCount
    rw [if_pos (monthIdx_le_of_dayNumber_le hs he hse)]
  have hkM : (boundaryPhase (monthlyDCAStrategy mb dOM) s e mb
      (stateAt dl (monthlyDCAStrategy mb dOM) s e mb
        (computeTotalBudget (monthlyDCAStrategy mb dOM).tag s e mb) k)
      (shiftDays s k)).monthsElapsed ≤ getCompleteMonthsCount s e := by
    rw [hmE, hM]
    have := monthIdx_le_of_dayNumber_le (valid_shiftDays hs k) he
      (shiftDays_dayNumber_le_e s e hs hk)
    omega
  have hkMq : ((boundaryPhase (monthlyDCAStrategy mb dOM) s e mb
      (stateAt dl (monthlyDCAStrategy mb dOM) s e mb
        (computeTotalBudget (monthlyDCAStrategy mb dOM).tag s e mb) k)
      (shiftDays s k)).monthsElapsed : ℚ) ≤ ((getCompleteMonthsCount s e : Int) : ℚ) := by
    exact_mod_cast hkM
  have hTB : computeTotalBudget (monthlyDCAStrategy mb dOM).tag s e mb =
      ((getCompleteMonthsCount s e : Int) : ℚ) * mb := rfl
  have hcash : mb ≤ (boundaryPhase (monthlyDCAStrategy mb dOM) s e mb
      (stateAt dl (monthlyDCAStrategy mb dOM) s e mb
        (computeTotalBudget (monthlyDCAStrategy mb dOM).tag s e mb) k)
      (shiftDays s k)).cashBalance := by
    rw [hA1]
    push_cast at hA2' ⊢
    linarith
  refine ⟨?_, hcash⟩
  have hrem : mb ≤ max 0 (computeTotalBudget (monthlyDCAStrategy mb dOM).tag s e mb -
      (boundaryPhase (monthlyDCAStrategy mb dOM) s e mb
        (stateAt dl (monthlyDCAStrategy mb dOM) s e mb
          (computeTotalBudget (monthlyDCAStrategy mb dOM).tag s e mb) k)
        (shiftDays s k)).totalInvested) := by
    refine le_trans ?_ (le_max_right 0 _)
    push_cast at hA2'
    nlinarith [hTB, hA2', mul_nonneg (sub_nonneg.mpr hkMq) hmb.le]
  unfold executedAmount
  rw [show isUnlimitedBudgetTag (monthlyDCAStrategy mb dOM).tag = false from rfl]
  simp only [Bool.false_eq_true, if_false]
  exact min_eq_left hrem

end C3Exec

section C3Budget

variable (dl : DataLoader) {σ : Type} (strat : Strat σ) (s e : Ymd) (mb tb : ℚ)

lemma executedAmount_le_remaining (ti req : ℚ)
    (hnu : isUnlimitedBudgetTag strat.tag = false) :
    executedAmount strat.tag tb ti req ≤ max 0 (tb - ti) := by
  unfold executedAmount
  rw [hnu]
  simp only [Bool.false_eq_true, if_false]
  exact min_le_right _ _

lemma runCore_ti_le_tb (h0 : 0 ≤ tb) (hnu : isUnlimitedBudgetTag strat.tag = false) :
    (runCore dl strat s e mb tb).totalInvested ≤ tb := by
  unfold runCore
  refine @foldl_preserve Ymd (RunState σ) (fun st => st.totalInvested ≤ tb)
    (stepDay dl strat s e mb tb) (dayList s (numDays s e)) (initState strat) ?_ ?_
  · simpa [initState] using h0
  · intro x _ st hst
    obtain ⟨b1, -, -, -, -⟩ := boundaryPhase_fields strat s e mb st x
    rcases hgp : dl.getPriceData x with _ | dd
    · rw [stepDay_of_skip dl strat s e mb tb st x (Or.inl hgp)]
      simpa [b1] using hst
    · by_cases hp : dd.price > 0
      · rw [stepDay_of_priced dl strat s e mb tb st x dd hgp hp]
        have ht := tradeAndRecord_spec strat s e tb (boundaryPhase strat s e mb st x) x dd
        dsimp only at ht
        obtain ⟨-, t2, -, -, -, -, -, -⟩ := ht
        dsimp only
        rw [t2, b1]
        have hle := executedAmount_le_remaining strat tb
          (boundaryPhase strat s e mb st x).totalInvested
          ((strat.shouldInvest x dd.price dd
            (strat.updatePriceHistory dd.price
              (boundaryPhase strat s e mb st x).stratState)).1) hnu
        rw [b1] at hle
        split_ifs with htr
        · rcases le_or_lt 0 (tb - st.totalInvested) with hc | hc
          · rw [max_eq_right hc] at hle
            linarith
          · rw [max_eq_left hc.le] at hle
            linarith
        · simpa using hst
      · rw [stepDay_of_skip dl strat s e mb tb st x (Or.inr ⟨dd, hgp, hp⟩)]
        simpa [b1] using hst

end C3Budget

end BacktestEngine

open BacktestEngine in
/-- **C3** (functional correctness): on a day with a valid price where the
strategy requests a positive amount, the engine passes the request through
unchanged for unlimited-budget strategies and caps it at
`min(requested, max(0, totalBudget - totalInvested))` otherwise; for the
cash-balance-tracked Daily and Monthly DCA strategies the cap is provably
also `min(requested, availableCash)` at every such day. BTC bought is
`executedAmount / price`, a Transaction is appended exactly when the
executed amount is positive, `totalInvested` never exceeds `totalBudget`
for non-unlimited strategies, and every recorded transaction has a
positive amount. -/
theorem C3_executed_amount_rules (jsPow : ℚ → ℚ → JsNum) (dl : DataLoader)
    (s e : Ymd) (mb : ℚ) (hs : Valid s) (he : Valid e)
    (hse : dayNumber s ≤ dayNumber e) (hmb : 0 < mb) :
    (∀ {σ : Type} (strat : Strat σ) (k : Nat), k < numDays s e →
      ∀ dd : DayData, dl.getPriceData (shiftDays s k) = some dd → 0 < dd.price →
      ∀ st1 : RunState σ, st1 = boundaryPhase strat s e mb
        (stateAt dl strat s e mb (computeTotalBudget strat.tag s e mb) k) (shiftDays s k) →
      ∀ req : ℚ, req = (strat.shouldInvest (shiftDays s k) dd.price dd
        (strat.updatePriceHistory dd.price st1.stratState)).1 →
      0 < req →
      ∀ exec : ℚ, exec = executedAmount strat.tag (computeTotalBudget strat.tag s e mb)
        st1.totalInvested req →
      (isUnlimitedBudgetTag strat.tag = true → exec = req) ∧
      (isUnlimitedBudgetTag strat.tag = false →
        exec = min req (max 0 (computeTotalBudget strat.tag s e mb - st1.totalInvested))) ∧
      (stateAt dl strat s e mb (computeTotalBudget strat.tag s e mb) (k + 1)).totalInvested =
        st1.totalInvested + (if 0 < exec then exec else 0) ∧
      (stateAt dl strat s e mb (computeTotalBudget strat.tag s e mb) (k + 1)).btcBalance =
        st1.btcBalance + (if 0 < exec then exec / dd.price else 0) ∧
      (stateAt dl strat s e mb (computeTotalBudget strat.tag s e mb) (k + 1)).transactions =
        st1.transactions ++ (if 0 < exec then
          [(⟨shiftDays s k, exec, exec / dd.price, dd.price, jsOrNull dd.ahr999⟩ : Transaction)]
         else [])) ∧
    (∀ k : Nat, k < numDays s e →
      executedAmount (dailyDCAStrategy mb).tag (computeTotalBudget (dailyDCAStrategy mb).tag s e mb)
        (boundaryPhase (dailyDCAStrategy mb) s e mb
          (stateAt dl (dailyDCAStrategy mb) s e mb
            (computeTotalBudget (dailyDCAStrategy mb).tag s e mb) k)
          (shiftDays s k)).totalInvested (mb / DataLoader.daysPerMonth) =
      min (mb / DataLoader.daysPerMonth)
        (boundaryPhase (dailyDCAStrategy mb) s e mb
          (stateAt dl (dailyDCAStrategy mb) s e mb
            (computeTotalBudget (dailyDCAStrategy mb).tag s e mb) k)
          (shiftDays s k)).cashBalance) ∧
    (∀ (dOM : Int) (k : Nat), k < numDays s e → (shiftDays s k).d = dOM →
      executedAmount (monthlyDCAStrategy mb dOM).tag
        (computeTotalBudget (monthlyDCAStrategy mb dOM).tag s e mb)
        (boundaryPhase (monthlyDCAStrategy mb dOM) s e mb
          (stateAt dl (monthlyDCAStrategy mb dOM) s e mb
            (computeTotalBudget (monthlyDCAStrategy mb dOM).tag s e mb) k)
          (shiftDays s k)).totalInvested mb =
      min mb
        (boundaryPhase (monthlyDCAStrategy mb dOM) s e mb
          (stateAt dl (monthlyDCAStrategy mb dOM) s e mb
            (computeTotalBudget (monthlyDCAStrategy mb dOM).tag s e mb) k)
          (shiftDays s k)).cashBalance) ∧
    (∀ {σ : Type} (strat : Strat σ), isUnlimitedBudgetTag strat.tag = false →
      (run jsPow dl strat s e mb).totalInvested ≤ computeTotalBudget strat.tag s e mb) ∧
    (∀ {σ : Type} (strat : Strat σ),
      ∀ t ∈ (run jsPow dl strat s e mb).transactions, 0 < t.investAmount) := by
  refine ⟨?_, ?_, ?_, ?_, ?_⟩
  · intro σ strat k hk dd hdd hp st1 hst1 req hreq hreqpos exec hexec
    subst hexec
    subst hreq
    subst hst1
    refine ⟨?_, ?_, ?_, ?_, ?_⟩
    · intro hu
      unfold executedAmount
      rw [hu]
      simp
    · intro hu
      unfold executedAmount
      rw [hu]
      simp
    all_goals
      rw [stateAt_succ dl strat s e mb (computeTotalBudget strat.tag s e mb) hk,
        stepDay_of_priced dl strat s e mb (computeTotalBudget strat.tag s e mb) _ _ dd hdd hp]
      have ht := tradeAndRecord_spec strat s e (computeTotalBudget strat.tag s e mb)
        (boundaryPhase strat s e mb
          (stateAt dl strat s e mb (computeTotalBudget strat.tag s e mb) k) (shiftDays s k))
        (shiftDays s k) dd
      dsimp only at ht
      obtain ⟨-, t2, t3, -, t5, -, -, -⟩ := ht
      simp only [eq_true hreqpos, true_and] at t2 t3 t5
    · exact t2
    · exact t3
    · exact t5
  · intro k hk
    obtain ⟨h1, h2⟩ := daily_exec dl s e mb hs hse hmb hk
    rw [h1, min_eq_left h2]
  · intro dOM k hk hdom
    obtain ⟨h1, h2⟩ := monthly_exec dl s e mb dOM hs he hse hmb hk hdom
    rw [h1, min_eq_left h2]
  · intro σ strat hnu
    have h := runCore_ti_le_tb dl strat s e mb (computeTotalBudget strat.tag s e mb)
      (computeTotalBudget_nonneg s e mb hse hmb strat.tag) hnu
    rw [(run_fields dl strat s e mb jsPow).1]
    exact h
  · intro σ strat t ht
    have h := (runCore_sumInv dl strat s e mb (computeTotalBudget strat.tag s e mb)).2.2
    rw [(run_fields dl strat s e mb jsPow).2.2.1] at ht
    exact h t ht

open BacktestEngine in
theorem C3_witness :
    (run wPow vDl (dailyDCAStrategy 1000) ⟨2020, 1, 1⟩ ⟨2020, 1, 3⟩ 1000).totalInvested ≤
      computeTotalBudget (dailyDCAStrategy 1000).tag ⟨2020, 1, 1⟩ ⟨2020, 1, 3⟩ 1000 :=
  (C3_executed_amount_rules wPow vDl ⟨2020, 1, 1⟩ ⟨2020, 1, 3⟩ 1000
    (by decide) (by decide) (by decide) (by norm_num)).2.2.2.1 (dailyDCAStrategy 1000) rfl

namespace BacktestEngine

end BacktestEngine

end Backtest
